import Mathlib

/-!
Shallow embedding of the `sarvam-ai-sdk` provider (TypeScript) in Lean 4,
covering the parts of the code that the verified claims are about:

* `mapSarvamFinishReason` (shared finish-reason mapper),
* the `doStream` SSE-chunk-to-stream-event state machine of
  `SarvamChatLanguageModel` (`src/chat/model.ts`),
* `convertToSarvamChatMessages` (`src/chat/convert-messages.ts`),
* the argument builder of `SarvamTranslationModel`
  (`src/sarvam-translation-model.ts`).

External library functions that the code calls (`isParsableJson` from
`@ai-sdk/provider-utils`, `JSON.stringify`, `Buffer.toString("base64")`,
JavaScript array-to-string coercion) are taken as parameters of the
embedded functions, so every theorem quantifies over them.
-/

namespace Sarvam

/-- `LanguageModelV3FinishReason`: the normalized finish reason together with
the raw vendor string. -/
structure FinishReason where
  unified : String
  raw : Option String
deriving DecidableEq, Repr

/-- `mapSarvamFinishReason` from `src/shared/map-finish-reason.ts`.
`null` and `undefined` inputs are both `none`. -/
def mapSarvamFinishReason : Option String → FinishReason
  | some "stop" => ⟨"stop", some "stop"⟩
  | some "length" => ⟨"length", some "length"⟩
  | some "content_filter" => ⟨"content-filter", some "content_filter"⟩
  | some "function_call" => ⟨"tool-calls", some "function_call"⟩
  | some "tool_calls" => ⟨"tool-calls", some "tool_calls"⟩
  | some other => ⟨"other", some other⟩
  | none => ⟨"other", none⟩

/-- The `x_sarvam.usage` payload of a stream chunk
(`prompt_tokens` / `completion_tokens`, both nullish). -/
structure SarvamUsage where
  prompt_tokens : Option Int
  completion_tokens : Option Int
deriving DecidableEq, Repr

/-- The fields of `LanguageModelV3Usage` that the adapter ever sets
(`inputTokens.total` and `outputTokens.total`); all other fields are the
constant `undefined` in the code and are omitted. -/
structure Usage where
  inputTokensTotal : Option Int
  outputTokensTotal : Option Int
deriving DecidableEq, Repr

/-- The initial `usage` value of `doStream` (all fields `undefined`). -/
def emptyUsage : Usage := ⟨none, none⟩

/-- One element of `delta.tool_calls` in `sarvamChatChunkSchema`.
The nested `function` object is flattened into the two fields
`functionName` / `functionArguments`; `ty` is the optional `type` field. -/
structure SarvamToolCallDelta where
  index : Nat
  id : Option String
  ty : Option String
  functionName : Option String
  functionArguments : Option String
deriving DecidableEq, Repr

/-- The `delta` object of a chunk choice. -/
structure SarvamDelta where
  content : Option String
  reasoning : Option String
  tool_calls : Option (List SarvamToolCallDelta)
deriving DecidableEq, Repr

/-- One element of `choices` in a stream chunk. -/
structure SarvamChoice where
  delta : Option SarvamDelta
  finish_reason : Option String
  index : Nat
deriving DecidableEq, Repr

/-- A successfully parsed (non-error) stream chunk.  `usage` is the flattening
of `x_sarvam?.usage`: it is `some u` exactly when `x_sarvam` is present and
carries a non-nullish `usage` object. -/
structure SarvamChunkValue where
  id : Option String
  created : Option Int
  model : Option String
  choices : List SarvamChoice
  usage : Option SarvamUsage
deriving DecidableEq, Repr

/-- A `ParseResult` as delivered to the `TransformStream`:
* `failure` — `chunk.success` is `false` (structural validation failed),
* `errorValue` — the parsed value matches the error schema (`"error" in value`),
* `value v` — a well-formed chunk.
The error payloads themselves are never inspected by the transform, so they
are not carried. -/
inductive StreamChunk
  | failure
  | errorValue
  | value (v : SarvamChunkValue)
deriving DecidableEq, Repr

/-- The `LanguageModelV3StreamPart`s that `doStream` can enqueue.  Constant
payloads that no claim is about (the warnings of `stream-start`, the error
payload of `error` parts) are omitted. -/
inductive StreamEvent
  | streamStart
  | responseMetadata (id modelId : Option String) (created : Option Int)
  | errorEvent
  | reasoningStart (id : String)
  | reasoningDelta (id delta : String)
  | reasoningEnd (id : String)
  | textStart (id : String)
  | textDelta (id delta : String)
  | textEnd (id : String)
  | toolInputStart (id toolName : String)
  | toolInputDelta (id delta : String)
  | toolInputEnd (id : String)
  | toolCall (toolCallId toolName input : String)
  | finish (finishReason : FinishReason) (usage : Usage)
deriving DecidableEq, Repr

/-- One entry of the `toolCalls` accumulator array of `doStream`
(`type: "function"` is constant and omitted). -/
structure ToolCallState where
  id : String
  name : String
  arguments : String
  hasFinished : Bool
deriving DecidableEq, Repr

/-- The mutable state captured by the `doStream` closure. The sparse JS array
`toolCalls` is modelled as a map from index to an optional entry. -/
structure StreamState where
  toolCalls : Nat → Option ToolCallState
  finishReason : FinishReason
  usage : Usage
  isFirstChunk : Bool
  textStarted : Bool
  reasoningStarted : Bool

/-- An exception thrown by the transform (`InvalidResponseDataError`). -/
inductive StreamError
  | invalidResponseData (message : String)
deriving DecidableEq, Repr

/-- The state of `doStream` before the first chunk arrives. -/
def initialStreamState : StreamState :=
  { toolCalls := fun _ => none
    finishReason := ⟨"other", none⟩
    usage := emptyUsage
    isFirstChunk := true
    textStarted := false
    reasoningStarted := false }

/-- The body of the `for (const toolCallDelta of delta.tool_calls)` loop of
`doStream` for a single element: returns the enqueued events, the updated
`toolCalls` array, and the exception if one was thrown. -/
def toolDeltaStep (jsonOk : String → Bool) (td : SarvamToolCallDelta)
    (toolCalls : Nat → Option ToolCallState) :
    List StreamEvent × (Nat → Option ToolCallState) × Option StreamError :=
  match toolCalls td.index with
  | none =>
    if td.ty ≠ some "function" then
      ([], toolCalls, some (.invalidResponseData "Expected function type."))
    else
      match td.id with
      | none =>
        ([], toolCalls, some (.invalidResponseData "Expected id to be a string."))
      | some tcId =>
        match td.functionName with
        | none =>
          ([], toolCalls,
            some (.invalidResponseData "Expected function.name to be a string."))
        | some name =>
          let args := td.functionArguments.getD ""
          let finished := jsonOk args
          let entry : ToolCallState := ⟨tcId, name, args, finished⟩
          let events :=
            [StreamEvent.toolInputStart tcId name]
              ++ (if args.length > 0 then [StreamEvent.toolInputDelta tcId args] else [])
              ++ (if finished then
                    [StreamEvent.toolInputEnd tcId, StreamEvent.toolCall tcId name args]
                  else [])
          (events, fun j => if j = td.index then some entry else toolCalls j, none)
  | some current =>
    if current.hasFinished then
      ([], toolCalls, none)
    else
      let newArguments := current.arguments ++ td.functionArguments.getD ""
      let finished := jsonOk newArguments
      let events :=
        [StreamEvent.toolInputDelta current.id (td.functionArguments.getD "")]
          ++ (if finished then
                [StreamEvent.toolInputEnd current.id,
                 StreamEvent.toolCall current.id current.name newArguments]
              else [])
      (events,
        fun j =>
          if j = td.index then
            some { current with arguments := newArguments, hasFinished := finished }
          else toolCalls j,
        none)

/-- The whole `for` loop over `delta.tool_calls`; a thrown exception stops the
loop with the events enqueued so far. -/
def processToolCallDeltas (jsonOk : String → Bool) :
    List SarvamToolCallDelta → (Nat → Option ToolCallState) →
    List StreamEvent × (Nat → Option ToolCallState) × Option StreamError
  | [], toolCalls => ([], toolCalls, none)
  | td :: rest, toolCalls =>
    match toolDeltaStep jsonOk td toolCalls with
    | (events, toolCalls1, some e) => (events, toolCalls1, some e)
    | (events, toolCalls1, none) =>
      let (events2, toolCalls2, err) := processToolCallDeltas jsonOk rest toolCalls1
      (events ++ events2, toolCalls2, err)

/-- The `stream-start` / `response-metadata` events enqueued on the first
chunk. -/
def firstChunkEvents (v : SarvamChunkValue) (st : StreamState) : List StreamEvent :=
  if st.isFirstChunk then
    [StreamEvent.streamStart, StreamEvent.responseMetadata v.id v.model v.created]
  else []

/-- The usage update (`if (value.x_sarvam?.usage != null) usage = {...}`):
the tracked usage is overwritten with the chunk's values. -/
def applyUsage (v : SarvamChunkValue) (st : StreamState) : StreamState :=
  match v.usage with
  | some u => { st with usage := ⟨u.prompt_tokens, u.completion_tokens⟩ }
  | none => st

/-- `if (choice?.finish_reason != null) finishReason = mapSarvamFinishReason(...)`. -/
def applyFinishReason (choice : Option SarvamChoice) (st : StreamState) : StreamState :=
  match choice with
  | some c =>
    match c.finish_reason with
    | some r => { st with finishReason := mapSarvamFinishReason (some r) }
    | none => st
  | none => st

/-- Processing of `delta.reasoning`: start event on first non-empty fragment,
then the delta event. -/
def reasoningStep (reasoningId : String) (delta : SarvamDelta) (st : StreamState) :
    List StreamEvent × StreamState :=
  match delta.reasoning with
  | some r =>
    if r.length > 0 then
      if st.reasoningStarted then
        ([StreamEvent.reasoningDelta reasoningId r], st)
      else
        ([StreamEvent.reasoningStart reasoningId,
          StreamEvent.reasoningDelta reasoningId r],
         { st with reasoningStarted := true })
    else ([], st)
  | none => ([], st)

/-- Processing of `delta.content`: start event on first non-empty fragment,
then the delta event. -/
def textStep (textId : String) (delta : SarvamDelta) (st : StreamState) :
    List StreamEvent × StreamState :=
  match delta.content with
  | some t =>
    if t.length > 0 then
      if st.textStarted then
        ([StreamEvent.textDelta textId t], st)
      else
        ([StreamEvent.textStart textId, StreamEvent.textDelta textId t],
         { st with textStarted := true })
    else ([], st)
  | none => ([], st)

/-- The `transform(chunk, controller)` callback of `doStream` for a single
chunk: the enqueued events, the updated closure state, and the exception if
one was thrown mid-chunk. -/
def transformChunk (jsonOk : String → Bool) (textId reasoningId : String)
    (chunk : StreamChunk) (st : StreamState) :
    List StreamEvent × StreamState × Option StreamError :=
  match chunk with
  | .failure =>
    ([StreamEvent.errorEvent], { st with finishReason := ⟨"error", none⟩ }, none)
  | .errorValue =>
    ([StreamEvent.errorEvent], { st with finishReason := ⟨"error", none⟩ }, none)
  | .value v =>
    let firstEvents := firstChunkEvents v st
    let st1 := { st with isFirstChunk := false }
    let st2 := applyUsage v st1
    let choice := v.choices.head?
    let st3 := applyFinishReason choice st2
    match choice with
    | none => (firstEvents, st3, none)
    | some c =>
      match c.delta with
      | none => (firstEvents, st3, none)
      | some delta =>
        let rStep := reasoningStep reasoningId delta st3
        let tStep := textStep textId delta rStep.2
        match delta.tool_calls with
        | none => (firstEvents ++ rStep.1 ++ tStep.1, tStep.2, none)
        | some tds =>
          let (toolEvents, toolCalls2, err) :=
            processToolCallDeltas jsonOk tds tStep.2.toolCalls
          (firstEvents ++ rStep.1 ++ tStep.1 ++ toolEvents,
           { tStep.2 with toolCalls := toolCalls2 }, err)

/-- Runs the transform over a list of chunks from a given state.  A thrown
exception errors the stream: later chunks are not processed. -/
def runTransform (jsonOk : String → Bool) (textId reasoningId : String) :
    List StreamChunk → StreamState →
    List StreamEvent × StreamState × Option StreamError
  | [], st => ([], st, none)
  | c :: cs, st =>
    match transformChunk jsonOk textId reasoningId c st with
    | (events, st1, some e) => (events, st1, some e)
    | (events, st1, none) =>
      let (events2, st2, err) := runTransform jsonOk textId reasoningId cs st1
      (events ++ events2, st2, err)

/-- The `flush(controller)` callback of `doStream`. -/
def flushEvents (textId reasoningId : String) (st : StreamState) : List StreamEvent :=
  (if st.reasoningStarted then [StreamEvent.reasoningEnd reasoningId] else [])
    ++ (if st.textStarted then [StreamEvent.textEnd textId] else [])
    ++ [StreamEvent.finish st.finishReason st.usage]

/-- The full event stream produced by `doStream` for a chunk sequence:
transform every chunk, then flush — unless the transform threw, in which case
the stream errors out and `flush` is never called. -/
def doStreamEvents (jsonOk : String → Bool) (textId reasoningId : String)
    (chunks : List StreamChunk) : List StreamEvent :=
  match runTransform jsonOk textId reasoningId chunks initialStreamState with
  | (events, st, none) => events ++ flushEvents textId reasoningId st
  | (events, _, some _) => events

/-! ## Message converter (`convertToSarvamChatMessages`) -/

/-- The `data` of a file content part: a `URL`, a base64 `string`, or a byte
array (`Uint8Array`). -/
inductive FilePartData
  | url (u : String)
  | base64Data (s : String)
  | bytes (b : List Nat)
deriving DecidableEq, Repr

/-- A `file` part of a user message. -/
structure FilePart where
  mediaType : String
  data : FilePartData
deriving DecidableEq, Repr

/-- A content part of a user turn. -/
inductive UserPart
  | text (t : String)
  | file (f : FilePart)
deriving DecidableEq, Repr

/-- A content part of an assistant turn.  The source `switch` handles only
`text` and `tool-call` parts; any other part kind falls through and is
ignored, which `otherPart` models.  `α` is the type of JSON values, whose
serialization (`JSON.stringify`) is an external parameter. -/
inductive AssistantPart (α : Type)
  | text (t : String)
  | toolCall (toolCallId toolName : String) (input : α)
  | otherPart
deriving DecidableEq, Repr

/-- The `output` of a tool-result part.  `other` stands for any output kind
not listed in the source `switch`, carrying the whole output object as a JSON
value (the default branch stringifies the entire object). -/
inductive ToolOutput (α : Type)
  | text (value : String)
  | errorText (value : String)
  | json (value : α)
  | errorJson (value : α)
  | executionDenied (reason : Option String)
  | other (raw : α)
deriving DecidableEq, Repr

/-- A content part of a tool turn; parts other than `tool-result` are skipped
by the source (`continue`). -/
inductive ToolPart (α : Type)
  | toolResult (toolCallId : String) (output : ToolOutput α)
  | otherPart
deriving DecidableEq, Repr

/-- One message of a `LanguageModelV3Prompt`. -/
inductive PromptMessage (α : Type)
  | system (content : String)
  | user (content : List UserPart)
  | assistant (content : List (AssistantPart α))
  | tool (content : List (ToolPart α))
deriving DecidableEq, Repr

/-- A part of a vendor user message with array content. -/
inductive SarvamContentPart
  | text (t : String)
  | imageUrl (url : String)
deriving DecidableEq, Repr

/-- One entry of an assistant message's `tool_calls`
(`type: "function"` is constant and omitted; the nested `function` object is
flattened). -/
structure SarvamToolCall where
  id : String
  name : String
  arguments : String
deriving DecidableEq, Repr

/-- A vendor chat message (`SarvamChatPrompt` element).  A user message's
content is either a plain string or an array of parts, modelled by the two
constructors `userText` / `userParts`. -/
inductive SarvamMessage
  | system (content : String)
  | userText (content : String)
  | userParts (content : List SarvamContentPart)
  | assistant (content : String) (tool_calls : Option (List SarvamToolCall))
  | tool (tool_call_id : String) (content : String)
deriving DecidableEq, Repr

/-- The exception `convertToSarvamChatMessages` can throw
(`UnsupportedFunctionalityError`). -/
inductive ConvertError
  | unsupportedFunctionality (functionality : String)
deriving DecidableEq, Repr

/-- Conversion of one user content part (the inner `content.map` callback);
`toBase64` is the external `Buffer.from(data).toString("base64")`. -/
def convertUserPart (toBase64 : List Nat → String) :
    UserPart → Except ConvertError SarvamContentPart
  | .text t => .ok (.text t)
  | .file f =>
    if ¬ f.mediaType.startsWith "image/" then
      .error (.unsupportedFunctionality "Non-image file content parts in user messages")
    else
      match f.data with
      | .url u => .ok (.imageUrl u)
      | .base64Data s =>
        .ok (.imageUrl ("data:" ++ f.mediaType ++ ";base64," ++ s))
      | .bytes b =>
        .ok (.imageUrl ("data:" ++ f.mediaType ++ ";base64," ++ toBase64 b))

/-- The body of the assistant-turn loop (`text += part.text` /
`toolCalls.push(...)`); `stringify` is the external `JSON.stringify`. -/
def assistantFold {α : Type} (stringify : α → String)
    (acc : String × List SarvamToolCall) (p : AssistantPart α) :
    String × List SarvamToolCall :=
  match p with
  | .text t => (acc.1 ++ t, acc.2)
  | .toolCall tcId toolName input =>
    (acc.1, acc.2 ++ [⟨tcId, toolName, stringify input⟩])
  | .otherPart => acc

/-- The assistant-turn loop: concatenates text parts and collects tool calls
in order. -/
def assistantAccum {α : Type} (stringify : α → String)
    (parts : List (AssistantPart α)) : String × List SarvamToolCall :=
  parts.foldl (assistantFold stringify) ("", [])

/-- The `switch (output.type)` computing a tool message's content. -/
def toolOutputContent {α : Type} (stringify : α → String) : ToolOutput α → String
  | .text v => v
  | .errorText v => v
  | .json v => stringify v
  | .errorJson v => stringify v
  | .executionDenied reason => reason.getD "Tool execution denied"
  | .other raw => stringify raw

/-- The messages pushed for a single prompt turn. -/
def convertMessage {α : Type} (stringify : α → String) (toBase64 : List Nat → String)
    (fakeToolSystemPrompt : Option String) :
    PromptMessage α → Except ConvertError (List SarvamMessage)
  | .system content =>
    let contentData :=
      match fakeToolSystemPrompt with
      | some f => content ++ "\n\n" ++ f
      | none => content
    .ok [SarvamMessage.system contentData]
  | .user content =>
    match content with
    | [UserPart.text t] => .ok [SarvamMessage.userText t]
    | _ => do
      let parts ← content.mapM (convertUserPart toBase64)
      pure [SarvamMessage.userParts parts]
  | .assistant content =>
    let (text, toolCalls) := assistantAccum stringify content
    .ok [SarvamMessage.assistant text
      (if toolCalls.length > 0 then some toolCalls else none)]
  | .tool content =>
    .ok (content.filterMap
      (fun p =>
        match p with
        | .toolResult tcId output =>
          some (SarvamMessage.tool tcId (toolOutputContent stringify output))
        | .otherPart => none))

/-- `convertToSarvamChatMessages` from `src/chat/convert-messages.ts`: the
loop over the prompt, appending each turn's messages in order. -/
def convertToSarvamChatMessages {α : Type} (stringify : α → String)
    (toBase64 : List Nat → String) (prompt : List (PromptMessage α))
    (fakeToolSystemPrompt : Option String) :
    Except ConvertError (List SarvamMessage) :=
  match prompt with
  | [] => .ok []
  | msg :: rest => do
    let msgs ← convertMessage stringify toBase64 fakeToolSystemPrompt msg
    let restMsgs ← convertToSarvamChatMessages stringify toBase64 rest fakeToolSystemPrompt
    pure (msgs ++ restMsgs)

/-! ## Translation model (`SarvamTranslationModel`) -/

/-- `SarvamTranslationSettings`: only the fields `getArgs` reads.  `from` and `to` are
Lean keywords, hence `from_` / `to_`. -/
structure SarvamTranslationSettings where
  model : Option String
  from_ : Option String
  to_ : Option String
  mode : Option String
  numerals_format : Option String
  enable_preprocessing : Option Bool
  output_script : Option String
  speaker_gender : Option String
deriving DecidableEq, Repr

/-- `this.modelId = settings.model ?? "mayura:v1"`. -/
def translationModelId (settings : SarvamTranslationSettings) : String :=
  settings.model.getD "mayura:v1"

/-- The request body built by `SarvamTranslationModel.getArgs`. -/
structure SarvamTranslationArgs where
  input : String
  source_language_code : String
  target_language_code : Option String
  numerals_format : String
  enable_preprocessing : Bool
  output_script : Option String
  speaker_gender : String
  mode : String
  model : String
deriving DecidableEq, Repr

/-- An exception thrown on the `doGenerate` path of the translation model:
either one of the plain `Error`s of `getArgs`, or an exception escaping the
message converter. -/
inductive TranslationError
  | settingsError (message : String)
  | convertError (e : ConvertError)
deriving DecidableEq, Repr

/-- `m.content` of a vendor message when `m.role === "user"`, as used by the
`input` builder.  `coerceParts` is the external JavaScript string coercion of
an array-valued content (applied by `Array.prototype.join`). -/
def sarvamMessageUserContent (coerceParts : List SarvamContentPart → String) :
    SarvamMessage → Option String
  | .userText s => some s
  | .userParts ps => some (coerceParts ps)
  | _ => none

/-- `SarvamTranslationModel.getArgs`: the validations, then the message
conversion, then the request body.  An `Except.error` models a thrown
exception: in that case no request body is built.  `doGenerate` calls this
before `postJsonToApi`, so an error also means no HTTP request is issued. -/
def translationGetArgs {α : Type} (settings : SarvamTranslationSettings)
    (coerceParts : List SarvamContentPart → String) (stringify : α → String)
    (toBase64 : List Nat → String) (prompt : List (PromptMessage α)) :
    Except TranslationError SarvamTranslationArgs :=
  if settings.from_ = settings.to_ then
    .error (.settingsError "Source and target languages code must be different.")
  else if translationModelId settings = "sarvam-translate:v1"
      ∧ settings.mode.getD "formal" ≠ "formal" then
    .error (.settingsError "Sarvam sarvam-translate:v1 only support mode formal.")
  else if translationModelId settings = "sarvam-translate:v1"
      ∧ settings.from_.getD "auto" = "auto" then
    .error (.settingsError "Sarvam sarvam-translate:v1 requires source language code.")
  else
    match convertToSarvamChatMessages stringify toBase64 prompt none with
    | .error e => .error (.convertError e)
    | .ok messages =>
      .ok
        { input :=
            String.intercalate "\n"
              (messages.filterMap (sarvamMessageUserContent coerceParts))
          source_language_code := settings.from_.getD "auto"
          target_language_code := settings.to_
          numerals_format := settings.numerals_format.getD "international"
          enable_preprocessing := settings.enable_preprocessing.getD false
          output_script := settings.output_script
          speaker_gender := settings.speaker_gender.getD "Male"
          mode := settings.mode.getD "formal"
          model := translationModelId settings }

/-! ## Event discriminators and specification predicates -/

/-- Is the event a `text-start`? -/
def isTextStartEvent : StreamEvent → Bool
  | .textStart _ => true
  | _ => false

/-- Is the event a `text-delta`? -/
def isTextDeltaEvent : StreamEvent → Bool
  | .textDelta _ _ => true
  | _ => false

/-- Is the event a `text-end`? -/
def isTextEndEvent : StreamEvent → Bool
  | .textEnd _ => true
  | _ => false

/-- Is the event a `reasoning-start`? -/
def isReasoningStartEvent : StreamEvent → Bool
  | .reasoningStart _ => true
  | _ => false

/-- Is the event a `reasoning-delta`? -/
def isReasoningDeltaEvent : StreamEvent → Bool
  | .reasoningDelta _ _ => true
  | _ => false

/-- Is the event a `reasoning-end`? -/
def isReasoningEndEvent : StreamEvent → Bool
  | .reasoningEnd _ => true
  | _ => false

/-- Is the event a `finish`? -/
def isFinishEvent : StreamEvent → Bool
  | .finish _ _ => true
  | _ => false

/-- Is the event one of the four tool-channel events? -/
def isToolEvent : StreamEvent → Bool
  | .toolInputStart _ _ => true
  | .toolInputDelta _ _ => true
  | .toolInputEnd _ => true
  | .toolCall _ _ _ => true
  | _ => false

/-- Is the event a `tool-input-start`? -/
def isToolInputStartEvent : StreamEvent → Bool
  | .toolInputStart _ _ => true
  | _ => false

/-- Is the event a `tool-input-delta`? -/
def isToolInputDeltaEvent : StreamEvent → Bool
  | .toolInputDelta _ _ => true
  | _ => false

/-- Is the event a `tool-call`? -/
def isToolCallEvent : StreamEvent → Bool
  | .toolCall _ _ _ => true
  | _ => false

/-- Every event satisfying `b` is strictly preceded by some event
satisfying `a`. -/
def precededBy (a b : StreamEvent → Bool) (evs : List StreamEvent) : Prop :=
  ∀ (k : Nat) (e : StreamEvent), evs[k]? = some e → b e = true →
    ∃ (j : Nat) (e2 : StreamEvent), j < k ∧ evs[j]? = some e2 ∧ a e2 = true

/-- Every `tool-call` event carries valid-JSON input and is immediately
preceded by a `tool-input-end` with the same id. -/
def toolCallOk (jsonOk : String → Bool) (evs : List StreamEvent) : Prop :=
  ∀ (k : Nat) (id name args : String), evs[k]? = some (.toolCall id name args) →
    jsonOk args = true ∧ ∃ (j : Nat), k = j + 1 ∧ evs[j]? = some (.toolInputEnd id)

/-- Every `tool-input-delta` is strictly preceded by a `tool-input-start`
with the same id. -/
def startOkTool (evs : List StreamEvent) : Prop :=
  ∀ (k : Nat) (id s : String), evs[k]? = some (.toolInputDelta id s) →
    ∃ (j : Nat) (n : String), j < k ∧ evs[j]? = some (.toolInputStart id n)

/-- The payloads of the `text-delta` events, in order. -/
def textDeltaPayloads (evs : List StreamEvent) : List String :=
  evs.filterMap fun e =>
    match e with
    | .textDelta _ s => some s
    | _ => none

/-- The payloads of the `reasoning-delta` events, in order. -/
def reasoningDeltaPayloads (evs : List StreamEvent) : List String :=
  evs.filterMap fun e =>
    match e with
    | .reasoningDelta _ s => some s
    | _ => none

/-- The `delta.content` fragment carried by a chunk (the one `doStream`
reads: that of `choices[0]`), if any. -/
def chunkTextFragments : StreamChunk → List String
  | .value v =>
    match v.choices.head? with
    | some ch =>
      match ch.delta with
      | some d =>
        match d.content with
        | some t => [t]
        | none => []
      | none => []
    | none => []
  | _ => []

/-- The `delta.reasoning` fragment carried by a chunk, if any. -/
def chunkReasoningFragments : StreamChunk → List String
  | .value v =>
    match v.choices.head? with
    | some ch =>
      match ch.delta with
      | some d =>
        match d.reasoning with
        | some r => [r]
        | none => []
      | none => []
    | none => []
  | _ => []

/-- The `x_sarvam.usage` totals carried by a chunk, if any. -/
def chunkUsage : StreamChunk → Option SarvamUsage
  | .value v => v.usage
  | _ => none

/-- The finish-reason overwrite a chunk performs, if any: malformed chunks
set the `error` reason, well-formed chunks with `choices[0].finish_reason`
set its mapping. -/
def chunkFinishReasonUpdate : StreamChunk → Option FinishReason
  | .failure => some ⟨"error", none⟩
  | .errorValue => some ⟨"error", none⟩
  | .value v =>
    match v.choices.head? with
    | some c => c.finish_reason.map fun r => mapSarvamFinishReason (some r)
    | none => none

/-! ## Generic positional lemmas -/

theorem precededBy_append {a b : StreamEvent → Bool} {xs ys : List StreamEvent}
    (hx : precededBy a b xs) (hy : precededBy a b ys) :
    precededBy a b (xs ++ ys) := by
  intro k e hk hb
  rcases Nat.lt_or_ge k xs.length with hlt | hge
  · rw [List.getElem?_append_left hlt] at hk
    obtain ⟨j, e2, hj, hj2, ha⟩ := hx k e hk hb
    have hjlt : j < xs.length := Nat.lt_trans hj hlt
    exact ⟨j, e2, hj, by rw [List.getElem?_append_left hjlt]; exact hj2, ha⟩
  · rw [List.getElem?_append_right hge] at hk
    obtain ⟨j, e2, hj, hj2, ha⟩ := hy (k - xs.length) e hk hb
    refine ⟨xs.length + j, e2, by omega, ?_, ha⟩
    rw [List.getElem?_append_right (by omega)]
    simpa using hj2

theorem precededBy_append_left_mem {a b : StreamEvent → Bool}
    {xs ys : List StreamEvent} (hx : precededBy a b xs)
    (ha : ∃ e ∈ xs, a e = true) : precededBy a b (xs ++ ys) := by
  obtain ⟨e0, he0, ha0⟩ := ha
  obtain ⟨j0, hj0⟩ := List.getElem?_of_mem he0
  have hj0lt : j0 < xs.length := (List.getElem?_eq_some.mp hj0).1
  intro k e hk hb
  rcases Nat.lt_or_ge k xs.length with hlt | hge
  · rw [List.getElem?_append_left hlt] at hk
    obtain ⟨j, e2, hj, hj2, ha'⟩ := hx k e hk hb
    have hjlt : j < xs.length := Nat.lt_trans hj hlt
    exact ⟨j, e2, hj, by rw [List.getElem?_append_left hjlt]; exact hj2, ha'⟩
  · refine ⟨j0, e0, by omega, ?_, ha0⟩
    rw [List.getElem?_append_left hj0lt]
    exact hj0

theorem precededBy_of_no_b {a b : StreamEvent → Bool} {ys : List StreamEvent}
    (h : ∀ e ∈ ys, b e = false) : precededBy a b ys := by
  intro k e hk hb
  have := h e (List.getElem?_mem hk)
  simp [this] at hb

theorem toolCallOk_append {jsonOk : String → Bool} {xs ys : List StreamEvent}
    (hx : toolCallOk jsonOk xs) (hy : toolCallOk jsonOk ys) :
    toolCallOk jsonOk (xs ++ ys) := by
  intro k id name args hk
  rcases Nat.lt_or_ge k xs.length with hlt | hge
  · rw [List.getElem?_append_left hlt] at hk
    obtain ⟨hjson, j, hkj, hj⟩ := hx k id name args hk
    refine ⟨hjson, j, hkj, ?_⟩
    rw [List.getElem?_append_left (by omega)]
    exact hj
  · rw [List.getElem?_append_right hge] at hk
    obtain ⟨hjson, j, hkj, hj⟩ := hy (k - xs.length) id name args hk
    refine ⟨hjson, xs.length + j, by omega, ?_⟩
    rw [List.getElem?_append_right (by omega)]
    simpa using hj

theorem toolCallOk_of_no_toolCall {jsonOk : String → Bool} {ys : List StreamEvent}
    (h : ∀ (k : Nat) (id name args : String),
      ys[k]? ≠ some (StreamEvent.toolCall id name args)) :
    toolCallOk jsonOk ys := by
  intro k id name args hk
  exact absurd hk (h k id name args)

theorem startOkTool_append {xs ys : List StreamEvent} (hx : startOkTool xs)
    (hy : ∀ (k : Nat) (id s : String),
      ys[k]? = some (StreamEvent.toolInputDelta id s) →
      (∃ n, StreamEvent.toolInputStart id n ∈ xs) ∨
      ∃ (j : Nat) (n : String), j < k ∧
        ys[j]? = some (StreamEvent.toolInputStart id n)) :
    startOkTool (xs ++ ys) := by
  intro k id s hk
  rcases Nat.lt_or_ge k xs.length with hlt | hge
  · rw [List.getElem?_append_left hlt] at hk
    obtain ⟨j, n, hj, hj2⟩ := hx k id s hk
    exact ⟨j, n, hj, by rw [List.getElem?_append_left (by omega)]; exact hj2⟩
  · rw [List.getElem?_append_right hge] at hk
    rcases hy (k - xs.length) id s hk with ⟨n, hmem⟩ | ⟨j, n, hj, hj2⟩
    · obtain ⟨j0, hj0⟩ := List.getElem?_of_mem hmem
      have hj0lt : j0 < xs.length := (List.getElem?_eq_some.mp hj0).1
      exact ⟨j0, n, by omega,
        by rw [List.getElem?_append_left hj0lt]; exact hj0⟩
    · refine ⟨xs.length + j, n, by omega, ?_⟩
      rw [List.getElem?_append_right (by omega)]
      simpa using hj2

/-! ## Facts about `toolDeltaStep` -/

theorem toolCallOk_of_no_call {jsonOk : String → Bool} {ys : List StreamEvent}
    (h : ∀ e ∈ ys, isToolCallEvent e = false) : toolCallOk jsonOk ys := by
  intro k id name args hk
  have hm := h _ (List.getElem?_mem hk)
  simp [isToolCallEvent] at hm

theorem toolCallOk_finalize_block {jsonOk : String → Bool} {i n a : String}
    (cond : Bool) (hj : cond = true → jsonOk a = true) :
    toolCallOk jsonOk
      (if cond then [StreamEvent.toolInputEnd i, StreamEvent.toolCall i n a]
       else []) := by
  cases cond with
  | false =>
    intro k id name args hk
    simp at hk
  | true =>
    intro k id name args hk
    simp only [if_true]
    match k with
    | 0 => simp at hk
    | 1 =>
      simp at hk
      obtain ⟨h1, h2, h3⟩ := hk
      subst h1; subst h2; subst h3
      exact ⟨hj rfl, 0, rfl, rfl⟩
    | (j+2) =>
      simp at hk

theorem toolDeltaStep_events_tool (jsonOk : String → Bool) (td : SarvamToolCallDelta)
    (tc : Nat → Option ToolCallState) :
    ∀ e ∈ (toolDeltaStep jsonOk td tc).1, isToolEvent e = true := by
  unfold toolDeltaStep
  intro e he
  repeat' split at he
  all_goals try simp_all [isToolEvent]
  all_goals first
    | (rcases he with rfl | ⟨-, rfl⟩ | ⟨-, rfl | rfl⟩ <;> rfl)
    | (rcases he with rfl | ⟨-, rfl | rfl⟩ <;> rfl)

theorem toolDeltaStep_toolCallOk (jsonOk : String → Bool) (td : SarvamToolCallDelta)
    (tc : Nat → Option ToolCallState) :
    toolCallOk jsonOk (toolDeltaStep jsonOk td tc).1 := by
  unfold toolDeltaStep
  split
  · split
    · intro k id name args hk; simp at hk
    · split
      · intro k id name args hk; simp at hk
      · split
        · intro k id name args hk; simp at hk
        · refine toolCallOk_append (toolCallOk_of_no_call ?_)
            (toolCallOk_finalize_block _ (fun h => h))
          intro e he
          simp only [List.mem_append, List.mem_singleton] at he
          rcases he with he | he
          · subst he; rfl
          · split at he <;> simp at he
            subst he; rfl
  · split
    · intro k id name args hk; simp at hk
    · refine toolCallOk_append (toolCallOk_of_no_call ?_)
        (toolCallOk_finalize_block _ (fun h => h))
      intro e he
      simp only [List.mem_singleton] at he
      subst he; rfl

theorem toolDeltaStep_monotone (jsonOk : String → Bool) (td : SarvamToolCallDelta)
    (tc : Nat → Option ToolCallState) (i : Nat) (h : (tc i).isSome = true) :
    (((toolDeltaStep jsonOk td tc).2.1) i).isSome = true := by
  unfold toolDeltaStep
  split
  · split
    · exact h
    · split
      · exact h
      · split
        · exact h
        · simp only
          split
          · rfl
          · exact h
  · split
    · exact h
    · simp only
      split
      · rfl
      · exact h

theorem toolDeltaStep_finished_entry (jsonOk : String → Bool) (td : SarvamToolCallDelta)
    (tc : Nat → Option ToolCallState) (i : Nat) (c : ToolCallState)
    (hc : tc i = some c) (hfin : c.hasFinished = true) :
    ((toolDeltaStep jsonOk td tc).2.1) i = some c := by
  unfold toolDeltaStep
  split
  case _ hnone =>
    split
    · exact hc
    · split
      · exact hc
      · split
        · exact hc
        · simp only
          split
          case _ hi =>
            subst hi
            rw [hnone] at hc
            exact absurd hc (by simp)
          case _ => exact hc
  case _ current hcur =>
    split
    · exact hc
    case _ hnf =>
      simp only
      split
      case _ hi =>
        subst hi
        rw [hcur] at hc
        injection hc with hc
        subst hc
        simp [hfin] at hnf
      case _ => exact hc

theorem toolDeltaStep_finished_skip (jsonOk : String → Bool) (td : SarvamToolCallDelta)
    (tc : Nat → Option ToolCallState) (c : ToolCallState)
    (hc : tc td.index = some c) (hfin : c.hasFinished = true) :
    toolDeltaStep jsonOk td tc = ([], tc, none) := by
  unfold toolDeltaStep
  rw [hc]
  simp [hfin]

theorem toolDeltaStep_no_start_present (jsonOk : String → Bool)
    (td : SarvamToolCallDelta) (tc : Nat → Option ToolCallState) (c : ToolCallState)
    (hc : tc td.index = some c) :
    ∀ e ∈ (toolDeltaStep jsonOk td tc).1, isToolInputStartEvent e = false := by
  unfold toolDeltaStep
  split
  case _ hnone => rw [hc] at hnone; exact absurd hnone (by simp)
  case _ current hcur =>
    split
    · intro e he; simp at he
    · intro e he
      simp only [List.mem_append, List.mem_singleton] at he
      rcases he with he | he
      · subst he; rfl
      · split at he <;> simp at he
        rcases he with he | he <;> subst he <;> rfl

theorem toolDeltaStep_toolCall_finished (jsonOk : String → Bool)
    (td : SarvamToolCallDelta) (tc : Nat → Option ToolCallState)
    (id n a : String)
    (hmem : StreamEvent.toolCall id n a ∈ (toolDeltaStep jsonOk td tc).1) :
    jsonOk a = true ∧ ∃ c : ToolCallState,
      ((toolDeltaStep jsonOk td tc).2.1) td.index = some c ∧
      c.hasFinished = true ∧ c.id = id ∧ c.name = n ∧ c.arguments = a := by
  rcases hcur : tc td.index with _ | current
  · by_cases hty : td.ty = some "function"
    · rcases hid : td.id with _ | tcId
      · simp [toolDeltaStep, hcur, hty, hid] at hmem
      · rcases hname : td.functionName with _ | nm
        · simp [toolDeltaStep, hcur, hty, hid, hname] at hmem
        · by_cases hfin : jsonOk (td.functionArguments.getD "") = true
          · simp only [toolDeltaStep, hcur, hty, hid, hname] at hmem ⊢
            simp [hfin] at hmem
            obtain ⟨rfl, rfl, rfl⟩ := hmem
            refine ⟨hfin, ⟨id, n, td.functionArguments.getD "",
              jsonOk (td.functionArguments.getD "")⟩, ?_, hfin, rfl, rfl, rfl⟩
            simp [hfin]
          · simp [toolDeltaStep, hcur, hty, hid, hname, hfin] at hmem
    · simp [toolDeltaStep, hcur, hty] at hmem
  · by_cases hf : current.hasFinished = true
    · simp [toolDeltaStep, hcur, hf] at hmem
    · by_cases hfin : jsonOk (current.arguments ++ td.functionArguments.getD "") = true
      · simp only [toolDeltaStep, hcur] at hmem ⊢
        simp [hf, hfin] at hmem
        obtain ⟨rfl, rfl, rfl⟩ := hmem
        refine ⟨hfin, ⟨current.id, current.name,
          current.arguments ++ td.functionArguments.getD "",
          jsonOk (current.arguments ++ td.functionArguments.getD "")⟩,
          ?_, hfin, rfl, rfl, rfl⟩
        simp [hf, hfin]
      · simp [toolDeltaStep, hcur, hf, hfin] at hmem

theorem toolDeltaStep_startInv (jsonOk : String → Bool) (td : SarvamToolCallDelta)
    (tc : Nat → Option ToolCallState) (evs0 : List StreamEvent)
    (hinv : ∀ (i : Nat) (c : ToolCallState), tc i = some c →
      StreamEvent.toolInputStart c.id c.name ∈ evs0)
    (hok : startOkTool evs0) :
    (∀ (i : Nat) (c : ToolCallState), ((toolDeltaStep jsonOk td tc).2.1) i = some c →
      StreamEvent.toolInputStart c.id c.name ∈ evs0 ++ (toolDeltaStep jsonOk td tc).1) ∧
    startOkTool (evs0 ++ (toolDeltaStep jsonOk td tc).1) := by
  rcases hcur : tc td.index with _ | current
  · by_cases hty : td.ty = some "function"
    · rcases hid : td.id with _ | tcId
      · simp only [toolDeltaStep, hcur, hty, hid, ne_eq, not_true_eq_false, if_false]
        simp only [List.append_nil]
        exact ⟨fun i c hc => hinv i c hc, hok⟩
      · rcases hname : td.functionName with _ | nm
        · simp only [toolDeltaStep, hcur, hty, hid, hname, ne_eq, not_true_eq_false,
            if_false]
          simp only [List.append_nil]
          exact ⟨fun i c hc => hinv i c hc, hok⟩
        · simp only [toolDeltaStep, hcur, hty, hid, hname, ne_eq, not_true_eq_false,
            if_false]
          constructor
          · intro i c hc
            by_cases hi : i = td.index
            · rw [if_pos hi] at hc
              injection hc with hc
              subst hc
              refine List.mem_append_right _ ?_
              simp
            · rw [if_neg hi] at hc
              exact List.mem_append_left _ (hinv i c hc)
          · refine startOkTool_append hok ?_
            intro k id s hk
            right
            by_cases hlen : (td.functionArguments.getD "").length > 0 <;>
              by_cases hfin : jsonOk (td.functionArguments.getD "") = true <;>
              simp only [hlen, hfin, if_true, if_false] at hk
            all_goals
              match k with
              | 0 => simp at hk
              | 1 =>
                first
                | (simp at hk
                   exact ⟨0, nm, by omega, by simp [hk.1]⟩)
                | simp at hk
              | 2 => simp at hk
              | 3 => simp at hk
              | (j+4) => simp at hk
    · simp only [toolDeltaStep, hcur, hty, ne_eq, not_false_eq_true, if_true]
      simp only [List.append_nil]
      exact ⟨fun i c hc => hinv i c hc, hok⟩
  · cases hfc : current.hasFinished with
    | true =>
      simp only [toolDeltaStep, hcur, hfc, if_true]
      simp only [List.append_nil]
      exact ⟨fun i c hc => hinv i c hc, hok⟩
    | false =>
      simp only [toolDeltaStep, hcur, hfc, Bool.false_eq_true, if_false]
      constructor
      · intro i c hc
        by_cases hi : i = td.index
        · rw [if_pos hi] at hc
          injection hc with hc
          subst hc
          exact List.mem_append_left _ (hinv td.index current hcur)
        · rw [if_neg hi] at hc
          exact List.mem_append_left _ (hinv i c hc)
      · refine startOkTool_append hok ?_
        intro k id s hk
        by_cases hfin : jsonOk (current.arguments ++ td.functionArguments.getD "") = true <;>
          simp only [hfin, if_true, if_false] at hk
        all_goals
          match k with
          | 0 =>
            left
            simp at hk
            exact ⟨current.name, hk.1 ▸ hinv td.index current hcur⟩
          | 1 => simp at hk
          | 2 => simp at hk
          | (j+3) => simp at hk

/-! ## Facts about the per-chunk building blocks -/


theorem countP_eq_zero_of_false {p : StreamEvent → Bool} {l : List StreamEvent}
    (h : ∀ e ∈ l, p e = false) : l.countP p = 0 :=
  List.countP_eq_zero.mpr (fun e he => by simp [h e he])

theorem firstChunkEvents_classify (v : SarvamChunkValue) (st : StreamState) :
    ∀ e ∈ firstChunkEvents v st,
      e = StreamEvent.streamStart ∨
      e = StreamEvent.responseMetadata v.id v.model v.created := by
  unfold firstChunkEvents
  split
  · intro e he
    simp only [List.mem_cons, List.mem_singleton, List.not_mem_nil, or_false] at he
    rcases he with he | he <;> [left; right] <;> exact he
  · intro e he
    simp at he

theorem textStep_frames (textId : String) (d : SarvamDelta) (st : StreamState) :
    ((textStep textId d st).2).toolCalls = st.toolCalls ∧
    ((textStep textId d st).2).usage = st.usage ∧
    ((textStep textId d st).2).finishReason = st.finishReason ∧
    ((textStep textId d st).2).isFirstChunk = st.isFirstChunk ∧
    ((textStep textId d st).2).reasoningStarted = st.reasoningStarted := by
  unfold textStep
  repeat' split
  all_goals exact ⟨rfl, rfl, rfl, rfl, rfl⟩

theorem textStep_classify (textId : String) (d : SarvamDelta) (st : StreamState) :
    ∀ e ∈ (textStep textId d st).1,
      e = StreamEvent.textStart textId ∨ ∃ s, e = StreamEvent.textDelta textId s := by
  unfold textStep
  repeat' split
  all_goals intro e he
  all_goals simp only [List.mem_cons, List.mem_singleton, List.not_mem_nil,
    or_false] at he
  all_goals try rcases he with he | he
  all_goals try subst he
  all_goals simp_all

theorem textStep_started (textId : String) (d : SarvamDelta) (st : StreamState)
    (h : st.textStarted = true) :
    (textStep textId d st).2 = st ∧
    (textStep textId d st).1.countP isTextStartEvent = 0 := by
  unfold textStep
  repeat' split
  all_goals simp_all [isTextStartEvent, List.countP_cons]

theorem textStep_unstarted (textId : String) (d : SarvamDelta) (st : StreamState)
    (h : st.textStarted = false) :
    ((textStep textId d st).2 = st ∧ (textStep textId d st).1 = []) ∨
    ((textStep textId d st).2 = { st with textStarted := true } ∧
      ∃ t, (textStep textId d st).1 =
        [StreamEvent.textStart textId, StreamEvent.textDelta textId t]) := by
  unfold textStep
  repeat' split
  · simp_all
  · right
    exact ⟨rfl, _, rfl⟩
  · left; exact ⟨rfl, rfl⟩
  · left; exact ⟨rfl, rfl⟩

theorem textStep_payloads (textId : String) (d : SarvamDelta) (st : StreamState) :
    textDeltaPayloads (textStep textId d st).1 =
      match d.content with
      | some t => if t.length > 0 then [t] else []
      | none => [] := by
  unfold textStep
  repeat' split
  all_goals simp_all [textDeltaPayloads]


theorem reasoningStep_frames (reasoningId : String) (d : SarvamDelta) (st : StreamState) :
    ((reasoningStep reasoningId d st).2).toolCalls = st.toolCalls ∧
    ((reasoningStep reasoningId d st).2).usage = st.usage ∧
    ((reasoningStep reasoningId d st).2).finishReason = st.finishReason ∧
    ((reasoningStep reasoningId d st).2).isFirstChunk = st.isFirstChunk ∧
    ((reasoningStep reasoningId d st).2).textStarted = st.textStarted := by
  unfold reasoningStep
  repeat' split
  all_goals exact ⟨rfl, rfl, rfl, rfl, rfl⟩

theorem reasoningStep_classify (reasoningId : String) (d : SarvamDelta) (st : StreamState) :
    ∀ e ∈ (reasoningStep reasoningId d st).1,
      e = StreamEvent.reasoningStart reasoningId ∨
      ∃ s, e = StreamEvent.reasoningDelta reasoningId s := by
  unfold reasoningStep
  repeat' split
  all_goals intro e he
  all_goals simp only [List.mem_cons, List.mem_singleton, List.not_mem_nil,
    or_false] at he
  all_goals try rcases he with he | he
  all_goals try subst he
  all_goals simp_all

theorem reasoningStep_started (reasoningId : String) (d : SarvamDelta) (st : StreamState)
    (h : st.reasoningStarted = true) :
    (reasoningStep reasoningId d st).2 = st ∧
    (reasoningStep reasoningId d st).1.countP isReasoningStartEvent = 0 := by
  unfold reasoningStep
  repeat' split
  all_goals simp_all [isReasoningStartEvent, List.countP_cons]

theorem reasoningStep_unstarted (reasoningId : String) (d : SarvamDelta) (st : StreamState)
    (h : st.reasoningStarted = false) :
    ((reasoningStep reasoningId d st).2 = st ∧ (reasoningStep reasoningId d st).1 = []) ∨
    ((reasoningStep reasoningId d st).2 = { st with reasoningStarted := true } ∧
      ∃ r, (reasoningStep reasoningId d st).1 =
        [StreamEvent.reasoningStart reasoningId,
         StreamEvent.reasoningDelta reasoningId r]) := by
  unfold reasoningStep
  repeat' split
  · simp_all
  · right
    exact ⟨rfl, _, rfl⟩
  · left; exact ⟨rfl, rfl⟩
  · left; exact ⟨rfl, rfl⟩

theorem reasoningStep_payloads (reasoningId : String) (d : SarvamDelta) (st : StreamState) :
    reasoningDeltaPayloads (reasoningStep reasoningId d st).1 =
      match d.reasoning with
      | some r => if r.length > 0 then [r] else []
      | none => [] := by
  unfold reasoningStep
  repeat' split
  all_goals simp_all [reasoningDeltaPayloads]


/-! ## Facts about `processToolCallDeltas` -/


theorem ptcd_events_tool (jsonOk : String → Bool) (tds : List SarvamToolCallDelta) :
    ∀ (tc : Nat → Option ToolCallState),
      ∀ e ∈ (processToolCallDeltas jsonOk tds tc).1, isToolEvent e = true := by
  induction tds with
  | nil => intro tc e he; simp [processToolCallDeltas] at he
  | cons td rest ih =>
    intro tc e he
    unfold processToolCallDeltas at he
    rcases hstep : toolDeltaStep jsonOk td tc with ⟨evs1, tc1, err⟩
    rw [hstep] at he
    cases err with
    | some er =>
      simp only at he
      have := toolDeltaStep_events_tool jsonOk td tc
      rw [hstep] at this
      exact this e he
    | none =>
      simp only at he
      rw [List.mem_append] at he
      rcases he with he | he
      · have := toolDeltaStep_events_tool jsonOk td tc
        rw [hstep] at this
        exact this e he
      · exact ih tc1 e he

theorem ptcd_toolCallOk (jsonOk : String → Bool) (tds : List SarvamToolCallDelta) :
    ∀ (tc : Nat → Option ToolCallState),
      toolCallOk jsonOk (processToolCallDeltas jsonOk tds tc).1 := by
  induction tds with
  | nil =>
    intro tc k id name args hk
    simp [processToolCallDeltas] at hk
  | cons td rest ih =>
    intro tc
    unfold processToolCallDeltas
    rcases hstep : toolDeltaStep jsonOk td tc with ⟨evs1, tc1, err⟩
    have hstep1 := toolDeltaStep_toolCallOk jsonOk td tc
    rw [hstep] at hstep1
    cases err with
    | some er => exact hstep1
    | none => exact toolCallOk_append hstep1 (ih tc1)

theorem ptcd_monotone (jsonOk : String → Bool) (tds : List SarvamToolCallDelta) :
    ∀ (tc : Nat → Option ToolCallState) (i : Nat), (tc i).isSome = true →
      (((processToolCallDeltas jsonOk tds tc).2.1) i).isSome = true := by
  induction tds with
  | nil => intro tc i h; exact h
  | cons td rest ih =>
    intro tc i h
    unfold processToolCallDeltas
    rcases hstep : toolDeltaStep jsonOk td tc with ⟨evs1, tc1, err⟩
    have hm := toolDeltaStep_monotone jsonOk td tc i h
    rw [hstep] at hm
    cases err with
    | some er => exact hm
    | none => exact ih tc1 i hm

theorem ptcd_finished_entry (jsonOk : String → Bool) (tds : List SarvamToolCallDelta) :
    ∀ (tc : Nat → Option ToolCallState) (i : Nat) (c : ToolCallState),
      tc i = some c → c.hasFinished = true →
      ((processToolCallDeltas jsonOk tds tc).2.1) i = some c := by
  induction tds with
  | nil => intro tc i c hc _; exact hc
  | cons td rest ih =>
    intro tc i c hc hfin
    unfold processToolCallDeltas
    rcases hstep : toolDeltaStep jsonOk td tc with ⟨evs1, tc1, err⟩
    have hm := toolDeltaStep_finished_entry jsonOk td tc i c hc hfin
    rw [hstep] at hm
    cases err with
    | some er => exact hm
    | none => exact ih tc1 i c hm hfin

theorem ptcd_startInv (jsonOk : String → Bool) (tds : List SarvamToolCallDelta) :
    ∀ (tc : Nat → Option ToolCallState) (evs0 : List StreamEvent),
      (∀ (i : Nat) (c : ToolCallState), tc i = some c →
        StreamEvent.toolInputStart c.id c.name ∈ evs0) →
      startOkTool evs0 →
      (∀ (i : Nat) (c : ToolCallState),
        ((processToolCallDeltas jsonOk tds tc).2.1) i = some c →
        StreamEvent.toolInputStart c.id c.name ∈
          evs0 ++ (processToolCallDeltas jsonOk tds tc).1) ∧
      startOkTool (evs0 ++ (processToolCallDeltas jsonOk tds tc).1) := by
  induction tds with
  | nil =>
    intro tc evs0 hinv hok
    simp only [processToolCallDeltas, List.append_nil]
    exact ⟨hinv, hok⟩
  | cons td rest ih =>
    intro tc evs0 hinv hok
    unfold processToolCallDeltas
    rcases hstep : toolDeltaStep jsonOk td tc with ⟨evs1, tc1, err⟩
    have hstepInv := toolDeltaStep_startInv jsonOk td tc evs0 hinv hok
    rw [hstep] at hstepInv
    cases err with
    | some er => exact hstepInv
    | none =>
      simp only
      rcases hrest : processToolCallDeltas jsonOk rest tc1 with ⟨evs2, tc2, err2⟩
      have hih := ih tc1 (evs0 ++ evs1) hstepInv.1 hstepInv.2
      rw [hrest] at hih
      simp only at hih
      rw [← List.append_assoc]
      exact hih


/-! ## Cross-channel classification helpers -/


theorem isToolEvent_cross (e : StreamEvent) (h : isToolEvent e = true) :
    isTextStartEvent e = false ∧ isTextDeltaEvent e = false ∧
    isReasoningStartEvent e = false ∧ isReasoningDeltaEvent e = false ∧
    isTextEndEvent e = false ∧ isReasoningEndEvent e = false ∧
    isFinishEvent e = false := by
  cases e <;> simp_all [isToolEvent, isTextStartEvent, isTextDeltaEvent,
    isReasoningStartEvent, isReasoningDeltaEvent, isTextEndEvent,
    isReasoningEndEvent, isFinishEvent]

theorem firstChunkEvents_countP_eq_zero (v : SarvamChunkValue) (st : StreamState)
    (p : StreamEvent → Bool) (h1 : p StreamEvent.streamStart = false)
    (h2 : ∀ a b c, p (StreamEvent.responseMetadata a b c) = false) :
    (firstChunkEvents v st).countP p = 0 :=
  countP_eq_zero_of_false fun e he => by
    rcases firstChunkEvents_classify v st e he with rfl | rfl
    · exact h1
    · exact h2 _ _ _

theorem reasoningStepEvents_countP_eq_zero (reasoningId : String) (d : SarvamDelta)
    (st : StreamState) (p : StreamEvent → Bool)
    (h1 : ∀ i, p (StreamEvent.reasoningStart i) = false)
    (h2 : ∀ i s, p (StreamEvent.reasoningDelta i s) = false) :
    ((reasoningStep reasoningId d st).1).countP p = 0 :=
  countP_eq_zero_of_false fun e he => by
    rcases reasoningStep_classify reasoningId d st e he with rfl | ⟨s, rfl⟩
    · exact h1 _
    · exact h2 _ _

theorem textStepEvents_countP_eq_zero (textId : String) (d : SarvamDelta)
    (st : StreamState) (p : StreamEvent → Bool)
    (h1 : ∀ i, p (StreamEvent.textStart i) = false)
    (h2 : ∀ i s, p (StreamEvent.textDelta i s) = false) :
    ((textStep textId d st).1).countP p = 0 :=
  countP_eq_zero_of_false fun e he => by
    rcases textStep_classify textId d st e he with rfl | ⟨s, rfl⟩
    · exact h1 _
    · exact h2 _ _

theorem ptcdEvents_countP_eq_zero (jsonOk : String → Bool)
    (tds : List SarvamToolCallDelta) (tc : Nat → Option ToolCallState)
    (p : StreamEvent → Bool) (h : ∀ e, isToolEvent e = true → p e = false) :
    ((processToolCallDeltas jsonOk tds tc).1).countP p = 0 :=
  countP_eq_zero_of_false fun e he => h e (ptcd_events_tool jsonOk tds tc e he)

theorem applyUsage_frames (v : SarvamChunkValue) (st : StreamState) :
    (applyUsage v st).toolCalls = st.toolCalls ∧
    (applyUsage v st).finishReason = st.finishReason ∧
    (applyUsage v st).isFirstChunk = st.isFirstChunk ∧
    (applyUsage v st).textStarted = st.textStarted ∧
    (applyUsage v st).reasoningStarted = st.reasoningStarted := by
  unfold applyUsage
  split <;> exact ⟨rfl, rfl, rfl, rfl, rfl⟩

theorem applyFinishReason_frames (choice : Option SarvamChoice) (st : StreamState) :
    (applyFinishReason choice st).toolCalls = st.toolCalls ∧
    (applyFinishReason choice st).usage = st.usage ∧
    (applyFinishReason choice st).isFirstChunk = st.isFirstChunk ∧
    (applyFinishReason choice st).textStarted = st.textStarted ∧
    (applyFinishReason choice st).reasoningStarted = st.reasoningStarted := by
  unfold applyFinishReason
  repeat' split
  all_goals exact ⟨rfl, rfl, rfl, rfl, rfl⟩


/-! ## Facts about `transformChunk` -/


theorem all_false_of_countP_zero {p : StreamEvent → Bool} {l : List StreamEvent}
    (h : l.countP p = 0) : ∀ e ∈ l, p e = false := by
  intro e he
  have := List.countP_eq_zero.mp h e he
  simpa using this

theorem precededBy_pair {a b : StreamEvent → Bool} {e1 e2 : StreamEvent}
    (h1 : b e1 = false) (h2 : a e1 = true) : precededBy a b [e1, e2] := by
  intro k e hk hb
  match k with
  | 0 =>
    simp at hk
    subst hk
    simp [h1] at hb
  | 1 => exact ⟨0, e1, by omega, rfl, h2⟩
  | (j+2) => simp at hk

theorem textFacts_core (tid rid : String) (d : SarvamDelta)
    (st3 : StreamState) (pre tail : List StreamEvent)
    (hpre1 : pre.countP isTextStartEvent = 0)
    (hpre2 : pre.countP isTextDeltaEvent = 0)
    (htail1 : tail.countP isTextStartEvent = 0)
    (htail2 : tail.countP isTextDeltaEvent = 0) :
    (st3.textStarted = true →
      ((textStep tid d (reasoningStep rid d st3).2).2).textStarted = true ∧
      (pre ++ (reasoningStep rid d st3).1 ++
        (textStep tid d (reasoningStep rid d st3).2).1 ++ tail).countP
          isTextStartEvent = 0) ∧
    (st3.textStarted = false →
      (((textStep tid d (reasoningStep rid d st3).2).2).textStarted = false ∧
        (pre ++ (reasoningStep rid d st3).1 ++
          (textStep tid d (reasoningStep rid d st3).2).1 ++ tail).countP
            isTextStartEvent = 0 ∧
        (pre ++ (reasoningStep rid d st3).1 ++
          (textStep tid d (reasoningStep rid d st3).2).1 ++ tail).countP
            isTextDeltaEvent = 0) ∨
      (((textStep tid d (reasoningStep rid d st3).2).2).textStarted = true ∧
        (pre ++ (reasoningStep rid d st3).1 ++
          (textStep tid d (reasoningStep rid d st3).2).1 ++ tail).countP
            isTextStartEvent = 1 ∧
        precededBy isTextStartEvent isTextDeltaEvent
          (pre ++ (reasoningStep rid d st3).1 ++
            (textStep tid d (reasoningStep rid d st3).2).1 ++ tail))) := by
  have hR2 : ((reasoningStep rid d st3).2).textStarted = st3.textStarted :=
    (reasoningStep_frames rid d st3).2.2.2.2
  have hRs : ((reasoningStep rid d st3).1).countP isTextStartEvent = 0 :=
    reasoningStepEvents_countP_eq_zero rid d st3 _ (fun _ => rfl) (fun _ _ => rfl)
  have hRd : ((reasoningStep rid d st3).1).countP isTextDeltaEvent = 0 :=
    reasoningStepEvents_countP_eq_zero rid d st3 _ (fun _ => rfl) (fun _ _ => rfl)
  constructor
  · intro hts
    have hstarted := textStep_started tid d (reasoningStep rid d st3).2
      (hR2.trans hts)
    refine ⟨by rw [hstarted.1, hR2]; exact hts, ?_⟩
    simp only [List.countP_append, hpre1, hRs, hstarted.2, htail1]
  · intro hts
    rcases textStep_unstarted tid d (reasoningStep rid d st3).2 (hR2.trans hts)
      with ⟨hT2, hT1⟩ | ⟨hT2, t, hT1⟩
    · left
      refine ⟨by rw [hT2, hR2]; exact hts, ?_, ?_⟩
      · simp only [List.countP_append, hpre1, hRs, hT1, htail1, List.countP_nil]
      · have hTd : ((textStep tid d (reasoningStep rid d st3).2).1).countP
            isTextDeltaEvent = 0 := by rw [hT1]; rfl
        simp only [List.countP_append, hpre2, hRd, hTd, htail2]
    · right
      refine ⟨by rw [hT2], ?_, ?_⟩
      · rw [hT1]
        simp only [List.countP_append, hpre1, hRs, htail1]
        rfl
      · rw [hT1]
        refine precededBy_append (precededBy_append ?_ (precededBy_pair rfl rfl)) ?_
        · exact precededBy_of_no_b (fun e he => by
            rcases List.mem_append.mp he with he | he
            · exact all_false_of_countP_zero hpre2 e he
            · exact all_false_of_countP_zero hRd e he)
        · exact precededBy_of_no_b (all_false_of_countP_zero htail2)

theorem transformChunk_textFacts (jsonOk : String → Bool) (tid rid : String)
    (ch : StreamChunk) (st : StreamState) (evs1 : List StreamEvent)
    (st1 : StreamState) (err : Option StreamError)
    (h : transformChunk jsonOk tid rid ch st = (evs1, st1, err)) :
    (st.textStarted = true →
      st1.textStarted = true ∧ evs1.countP isTextStartEvent = 0) ∧
    (st.textStarted = false →
      (st1.textStarted = false ∧ evs1.countP isTextStartEvent = 0 ∧
        evs1.countP isTextDeltaEvent = 0) ∨
      (st1.textStarted = true ∧ evs1.countP isTextStartEvent = 1 ∧
        precededBy isTextStartEvent isTextDeltaEvent evs1)) := by
  cases ch with
  | failure =>
    simp only [transformChunk] at h
    injection h with h1 h23
    injection h23 with h2 h3
    subst h1
    have hts : st1.textStarted = st.textStarted := by rw [← h2]
    exact ⟨fun ht => ⟨hts.trans ht, rfl⟩, fun ht => Or.inl ⟨hts.trans ht, rfl, rfl⟩⟩
  | errorValue =>
    simp only [transformChunk] at h
    injection h with h1 h23
    injection h23 with h2 h3
    subst h1
    have hts : st1.textStarted = st.textStarted := by rw [← h2]
    exact ⟨fun ht => ⟨hts.trans ht, rfl⟩, fun ht => Or.inl ⟨hts.trans ht, rfl, rfl⟩⟩
  | value v =>
    have hfr3 :
        (applyFinishReason v.choices.head?
          (applyUsage v { st with isFirstChunk := false })).textStarted
          = st.textStarted := by
      rw [(applyFinishReason_frames _ _).2.2.2.1, (applyUsage_frames _ _).2.2.2.1]
    have hfc1 : (firstChunkEvents v st).countP isTextStartEvent = 0 :=
      firstChunkEvents_countP_eq_zero v st _ rfl (fun _ _ _ => rfl)
    have hfc2 : (firstChunkEvents v st).countP isTextDeltaEvent = 0 :=
      firstChunkEvents_countP_eq_zero v st _ rfl (fun _ _ _ => rfl)
    rcases hch : v.choices.head? with _ | c
    · rw [hch] at hfr3
      simp only [transformChunk, hch] at h
      injection h with h1 h23
      injection h23 with h2 h3
      subst h1
      have hts : st1.textStarted = st.textStarted := by rw [← h2]; exact hfr3
      exact ⟨fun ht => ⟨hts.trans ht, hfc1⟩,
        fun ht => Or.inl ⟨hts.trans ht, hfc1, hfc2⟩⟩
    · rw [hch] at hfr3
      rcases hcd : c.delta with _ | d
      · simp only [transformChunk, hch, hcd] at h
        injection h with h1 h23
        injection h23 with h2 h3
        subst h1
        have hts : st1.textStarted = st.textStarted := by rw [← h2]; exact hfr3
        exact ⟨fun ht => ⟨hts.trans ht, hfc1⟩,
          fun ht => Or.inl ⟨hts.trans ht, hfc1, hfc2⟩⟩
      · rcases htc : d.tool_calls with _ | tds
        · simp only [transformChunk, hch, hcd, htc] at h
          injection h with h1 h23
          injection h23 with h2 h3
          have hcore := textFacts_core tid rid d
            (applyFinishReason (some c) (applyUsage v { st with isFirstChunk := false }))
            (firstChunkEvents v st) [] hfc1 hfc2 rfl rfl
          rw [List.append_nil] at hcore
          rw [← h1, ← h2]
          exact ⟨fun ht => hcore.1 (hfr3.trans ht),
            fun ht => hcore.2 (hfr3.trans ht)⟩
        · rcases hp : processToolCallDeltas jsonOk tds
              ((textStep tid d (reasoningStep rid d
                (applyFinishReason (some c)
                  (applyUsage v { st with isFirstChunk := false }))).2).2).toolCalls
            with ⟨tevs, tc2, terr⟩
          simp only [transformChunk, hch, hcd, htc, hp] at h
          injection h with h1 h23
          injection h23 with h2 h3
          have htv1 : tevs.countP isTextStartEvent = 0 := by
            have h0 := ptcdEvents_countP_eq_zero jsonOk tds
              ((textStep tid d (reasoningStep rid d
                (applyFinishReason (some c)
                  (applyUsage v { st with isFirstChunk := false }))).2).2).toolCalls
              isTextStartEvent (fun e he => (isToolEvent_cross e he).1)
            rw [hp] at h0
            exact h0
          have htv2 : tevs.countP isTextDeltaEvent = 0 := by
            have h0 := ptcdEvents_countP_eq_zero jsonOk tds
              ((textStep tid d (reasoningStep rid d
                (applyFinishReason (some c)
                  (applyUsage v { st with isFirstChunk := false }))).2).2).toolCalls
              isTextDeltaEvent (fun e he => (isToolEvent_cross e he).2.1)
            rw [hp] at h0
            exact h0
          have hcore := textFacts_core tid rid d
            (applyFinishReason (some c) (applyUsage v { st with isFirstChunk := false }))
            (firstChunkEvents v st) tevs hfc1 hfc2 htv1 htv2
          rw [← h1, ← h2]
          exact ⟨fun ht => hcore.1 (hfr3.trans ht),
            fun ht => hcore.2 (hfr3.trans ht)⟩

theorem reasoningFacts_core (tid rid : String) (d : SarvamDelta)
    (st3 : StreamState) (pre tail : List StreamEvent)
    (hpre1 : pre.countP isReasoningStartEvent = 0)
    (hpre2 : pre.countP isReasoningDeltaEvent = 0)
    (htail1 : tail.countP isReasoningStartEvent = 0)
    (htail2 : tail.countP isReasoningDeltaEvent = 0) :
    (st3.reasoningStarted = true →
      ((textStep tid d (reasoningStep rid d st3).2).2).reasoningStarted = true ∧
      (pre ++ (reasoningStep rid d st3).1 ++
        (textStep tid d (reasoningStep rid d st3).2).1 ++ tail).countP
          isReasoningStartEvent = 0) ∧
    (st3.reasoningStarted = false →
      (((textStep tid d (reasoningStep rid d st3).2).2).reasoningStarted = false ∧
        (pre ++ (reasoningStep rid d st3).1 ++
          (textStep tid d (reasoningStep rid d st3).2).1 ++ tail).countP
            isReasoningStartEvent = 0 ∧
        (pre ++ (reasoningStep rid d st3).1 ++
          (textStep tid d (reasoningStep rid d st3).2).1 ++ tail).countP
            isReasoningDeltaEvent = 0) ∨
      (((textStep tid d (reasoningStep rid d st3).2).2).reasoningStarted = true ∧
        (pre ++ (reasoningStep rid d st3).1 ++
          (textStep tid d (reasoningStep rid d st3).2).1 ++ tail).countP
            isReasoningStartEvent = 1 ∧
        precededBy isReasoningStartEvent isReasoningDeltaEvent
          (pre ++ (reasoningStep rid d st3).1 ++
            (textStep tid d (reasoningStep rid d st3).2).1 ++ tail))) := by
  have hT2 : ∀ st', ((textStep tid d st').2).reasoningStarted = st'.reasoningStarted :=
    fun st' => (textStep_frames tid d st').2.2.2.2
  have hTs : ((textStep tid d (reasoningStep rid d st3).2).1).countP
      isReasoningStartEvent = 0 :=
    textStepEvents_countP_eq_zero tid d _ _ (fun _ => rfl) (fun _ _ => rfl)
  have hTd : ((textStep tid d (reasoningStep rid d st3).2).1).countP
      isReasoningDeltaEvent = 0 :=
    textStepEvents_countP_eq_zero tid d _ _ (fun _ => rfl) (fun _ _ => rfl)
  constructor
  · intro hts
    have hstarted := reasoningStep_started rid d st3 hts
    refine ⟨by rw [hT2, hstarted.1]; exact hts, ?_⟩
    simp only [List.countP_append, hpre1, hstarted.2, hTs, htail1]
  · intro hts
    rcases reasoningStep_unstarted rid d st3 hts with ⟨hR2, hR1⟩ | ⟨hR2, r, hR1⟩
    · left
      refine ⟨by rw [hT2, hR2]; exact hts, ?_, ?_⟩
      · simp only [List.countP_append, hpre1, hR1, hTs, htail1, List.countP_nil]
      · have hRd : ((reasoningStep rid d st3).1).countP isReasoningDeltaEvent = 0 := by
          rw [hR1]; rfl
        simp only [List.countP_append, hpre2, hRd, hTd, htail2]
    · right
      refine ⟨by rw [hT2, hR2], ?_, ?_⟩
      · rw [hR1]
        simp only [List.countP_append, hpre1, hTs, htail1]
        rfl
      · rw [hR1]
        refine precededBy_append
          (precededBy_append
            (precededBy_append (precededBy_of_no_b (all_false_of_countP_zero hpre2))
              (precededBy_pair rfl rfl))
            (precededBy_of_no_b (all_false_of_countP_zero hTd)))
          (precededBy_of_no_b (all_false_of_countP_zero htail2))



theorem applyUsage_usage (v : SarvamChunkValue) (st : StreamState) :
    (applyUsage v st).usage =
      match v.usage with
      | some u => ⟨u.prompt_tokens, u.completion_tokens⟩
      | none => st.usage := by
  unfold applyUsage
  split <;> simp_all

theorem applyFinishReason_finishReason (choice : Option SarvamChoice) (st : StreamState) :
    (applyFinishReason choice st).finishReason =
      (match choice with
       | some c => c.finish_reason.map fun r => mapSarvamFinishReason (some r)
       | none => none).getD st.finishReason := by
  unfold applyFinishReason
  repeat' split
  all_goals simp_all

theorem startOkTool_append_no_delta {xs ys : List StreamEvent}
    (hx : startOkTool xs) (hy : ∀ e ∈ ys, isToolInputDeltaEvent e = false) :
    startOkTool (xs ++ ys) := by
  refine startOkTool_append hx ?_
  intro k id s hk
  have := hy _ (List.getElem?_mem hk)
  simp [isToolInputDeltaEvent] at this

theorem transformChunk_stateFacts (jsonOk : String → Bool) (tid rid : String)
    (ch : StreamChunk) (st : StreamState) (evs1 : List StreamEvent)
    (st1 : StreamState) (err : Option StreamError)
    (h : transformChunk jsonOk tid rid ch st = (evs1, st1, err)) :
    st1.usage = (match chunkUsage ch with
      | some u => ⟨u.prompt_tokens, u.completion_tokens⟩
      | none => st.usage) ∧
    st1.finishReason = (chunkFinishReasonUpdate ch).getD st.finishReason ∧
    evs1.countP isTextEndEvent = 0 ∧
    evs1.countP isReasoningEndEvent = 0 ∧
    evs1.countP isFinishEvent = 0 := by
  cases ch with
  | failure =>
    simp only [transformChunk] at h
    injection h with h1 h23
    injection h23 with h2 h3
    subst h1
    refine ⟨?_, ?_, rfl, rfl, rfl⟩
    · rw [← h2]; rfl
    · rw [← h2]; rfl
  | errorValue =>
    simp only [transformChunk] at h
    injection h with h1 h23
    injection h23 with h2 h3
    subst h1
    refine ⟨?_, ?_, rfl, rfl, rfl⟩
    · rw [← h2]; rfl
    · rw [← h2]; rfl
  | value v =>
    have husage :
        (applyFinishReason v.choices.head?
          (applyUsage v { st with isFirstChunk := false })).usage =
          (match chunkUsage (StreamChunk.value v) with
           | some u => (⟨u.prompt_tokens, u.completion_tokens⟩ : Usage)
           | none => st.usage) := by
      rw [(applyFinishReason_frames _ _).2.1, applyUsage_usage]
      rfl
    have hfinish :
        (applyFinishReason v.choices.head?
          (applyUsage v { st with isFirstChunk := false })).finishReason =
          (chunkFinishReasonUpdate (StreamChunk.value v)).getD st.finishReason := by
      rw [applyFinishReason_finishReason, (applyUsage_frames _ _).2.1]
      rfl
    have hfc : ∀ p : StreamEvent → Bool,
        p StreamEvent.streamStart = false →
        (∀ a b c, p (StreamEvent.responseMetadata a b c) = false) →
        (firstChunkEvents v st).countP p = 0 :=
      fun p h1 h2 => firstChunkEvents_countP_eq_zero v st p h1 h2
    rcases hch : v.choices.head? with _ | c
    · rw [hch] at husage hfinish
      simp only [transformChunk, hch] at h
      injection h with h1 h23
      injection h23 with h2 h3
      subst h1
      exact ⟨by rw [← h2]; exact husage, by rw [← h2]; exact hfinish,
        hfc _ rfl (fun _ _ _ => rfl), hfc _ rfl (fun _ _ _ => rfl),
        hfc _ rfl (fun _ _ _ => rfl)⟩
    · rw [hch] at husage hfinish
      rcases hcd : c.delta with _ | d
      · simp only [transformChunk, hch, hcd] at h
        injection h with h1 h23
        injection h23 with h2 h3
        subst h1
        exact ⟨by rw [← h2]; exact husage, by rw [← h2]; exact hfinish,
          hfc _ rfl (fun _ _ _ => rfl), hfc _ rfl (fun _ _ _ => rfl),
          hfc _ rfl (fun _ _ _ => rfl)⟩
      · have hRT : ∀ st',
            ((textStep tid d (reasoningStep rid d st').2).2).usage = st'.usage ∧
            ((textStep tid d (reasoningStep rid d st').2).2).finishReason
              = st'.finishReason := by
          intro st'
          constructor
          · rw [(textStep_frames tid d _).2.1, (reasoningStep_frames rid d _).2.1]
          · rw [(textStep_frames tid d _).2.2.1, (reasoningStep_frames rid d _).2.2.1]
        have hRc : ∀ p : StreamEvent → Bool,
            (∀ i, p (StreamEvent.reasoningStart i) = false) →
            (∀ i s, p (StreamEvent.reasoningDelta i s) = false) →
            ∀ st', ((reasoningStep rid d st').1).countP p = 0 :=
          fun p h1 h2 st' => reasoningStepEvents_countP_eq_zero rid d st' p h1 h2
        have hTc : ∀ p : StreamEvent → Bool,
            (∀ i, p (StreamEvent.textStart i) = false) →
            (∀ i s, p (StreamEvent.textDelta i s) = false) →
            ∀ st', ((textStep tid d st').1).countP p = 0 :=
          fun p h1 h2 st' => textStepEvents_countP_eq_zero tid d st' p h1 h2
        rcases htc : d.tool_calls with _ | tds
        · simp only [transformChunk, hch, hcd, htc] at h
          injection h with h1 h23
          injection h23 with h2 h3
          subst h1
          refine ⟨by rw [← h2]; exact ((hRT _).1).trans husage,
            by rw [← h2]; exact ((hRT _).2).trans hfinish, ?_, ?_, ?_⟩
          all_goals simp only [List.countP_append]
          · rw [hfc _ rfl (fun _ _ _ => rfl), hRc _ (fun _ => rfl) (fun _ _ => rfl) _,
              hTc _ (fun _ => rfl) (fun _ _ => rfl) _]
          · rw [hfc _ rfl (fun _ _ _ => rfl), hRc _ (fun _ => rfl) (fun _ _ => rfl) _,
              hTc _ (fun _ => rfl) (fun _ _ => rfl) _]
          · rw [hfc _ rfl (fun _ _ _ => rfl), hRc _ (fun _ => rfl) (fun _ _ => rfl) _,
              hTc _ (fun _ => rfl) (fun _ _ => rfl) _]
        · rcases hp : processToolCallDeltas jsonOk tds
              ((textStep tid d (reasoningStep rid d
                (applyFinishReason (some c)
                  (applyUsage v { st with isFirstChunk := false }))).2).2).toolCalls
            with ⟨tevs, tc2, terr⟩
          simp only [transformChunk, hch, hcd, htc, hp] at h
          injection h with h1 h23
          injection h23 with h2 h3
          subst h1
          have htev : ∀ p : StreamEvent → Bool,
              (∀ e, isToolEvent e = true → p e = false) → tevs.countP p = 0 := by
            intro p hp2
            have h0 := ptcdEvents_countP_eq_zero jsonOk tds
              ((textStep tid d (reasoningStep rid d
                (applyFinishReason (some c)
                  (applyUsage v { st with isFirstChunk := false }))).2).2).toolCalls
              p hp2
            rw [hp] at h0
            exact h0
          refine ⟨by rw [← h2]; exact ((hRT _).1).trans husage,
            by rw [← h2]; exact ((hRT _).2).trans hfinish, ?_, ?_, ?_⟩
          all_goals simp only [List.countP_append]
          · rw [hfc _ rfl (fun _ _ _ => rfl), hRc _ (fun _ => rfl) (fun _ _ => rfl) _,
              hTc _ (fun _ => rfl) (fun _ _ => rfl) _,
              htev _ (fun e he => (isToolEvent_cross e he).2.2.2.2.1)]
          · rw [hfc _ rfl (fun _ _ _ => rfl), hRc _ (fun _ => rfl) (fun _ _ => rfl) _,
              hTc _ (fun _ => rfl) (fun _ _ => rfl) _,
              htev _ (fun e he => (isToolEvent_cross e he).2.2.2.2.2.1)]
          · rw [hfc _ rfl (fun _ _ _ => rfl), hRc _ (fun _ => rfl) (fun _ _ => rfl) _,
              hTc _ (fun _ => rfl) (fun _ _ => rfl) _,
              htev _ (fun e he => (isToolEvent_cross e he).2.2.2.2.2.2)]



theorem transformChunk_reasoningFacts (jsonOk : String → Bool) (tid rid : String)
    (ch : StreamChunk) (st : StreamState) (evs1 : List StreamEvent)
    (st1 : StreamState) (err : Option StreamError)
    (h : transformChunk jsonOk tid rid ch st = (evs1, st1, err)) :
    (st.reasoningStarted = true →
      st1.reasoningStarted = true ∧ evs1.countP isReasoningStartEvent = 0) ∧
    (st.reasoningStarted = false →
      (st1.reasoningStarted = false ∧ evs1.countP isReasoningStartEvent = 0 ∧
        evs1.countP isReasoningDeltaEvent = 0) ∨
      (st1.reasoningStarted = true ∧ evs1.countP isReasoningStartEvent = 1 ∧
        precededBy isReasoningStartEvent isReasoningDeltaEvent evs1)) := by
  cases ch with
  | failure =>
    simp only [transformChunk] at h
    injection h with h1 h23
    injection h23 with h2 h3
    subst h1
    have hts : st1.reasoningStarted = st.reasoningStarted := by rw [← h2]
    exact ⟨fun ht => ⟨hts.trans ht, rfl⟩, fun ht => Or.inl ⟨hts.trans ht, rfl, rfl⟩⟩
  | errorValue =>
    simp only [transformChunk] at h
    injection h with h1 h23
    injection h23 with h2 h3
    subst h1
    have hts : st1.reasoningStarted = st.reasoningStarted := by rw [← h2]
    exact ⟨fun ht => ⟨hts.trans ht, rfl⟩, fun ht => Or.inl ⟨hts.trans ht, rfl, rfl⟩⟩
  | value v =>
    have hfr3 :
        (applyFinishReason v.choices.head?
          (applyUsage v { st with isFirstChunk := false })).reasoningStarted
          = st.reasoningStarted := by
      rw [(applyFinishReason_frames _ _).2.2.2.2, (applyUsage_frames _ _).2.2.2.2]
    have hfc1 : (firstChunkEvents v st).countP isReasoningStartEvent = 0 :=
      firstChunkEvents_countP_eq_zero v st _ rfl (fun _ _ _ => rfl)
    have hfc2 : (firstChunkEvents v st).countP isReasoningDeltaEvent = 0 :=
      firstChunkEvents_countP_eq_zero v st _ rfl (fun _ _ _ => rfl)
    rcases hch : v.choices.head? with _ | c
    · rw [hch] at hfr3
      simp only [transformChunk, hch] at h
      injection h with h1 h23
      injection h23 with h2 h3
      subst h1
      have hts : st1.reasoningStarted = st.reasoningStarted := by rw [← h2]; exact hfr3
      exact ⟨fun ht => ⟨hts.trans ht, hfc1⟩,
        fun ht => Or.inl ⟨hts.trans ht, hfc1, hfc2⟩⟩
    · rw [hch] at hfr3
      rcases hcd : c.delta with _ | d
      · simp only [transformChunk, hch, hcd] at h
        injection h with h1 h23
        injection h23 with h2 h3
        subst h1
        have hts : st1.reasoningStarted = st.reasoningStarted := by rw [← h2]; exact hfr3
        exact ⟨fun ht => ⟨hts.trans ht, hfc1⟩,
          fun ht => Or.inl ⟨hts.trans ht, hfc1, hfc2⟩⟩
      · rcases htc : d.tool_calls with _ | tds
        · simp only [transformChunk, hch, hcd, htc] at h
          injection h with h1 h23
          injection h23 with h2 h3
          have hcore := reasoningFacts_core tid rid d
            (applyFinishReason (some c) (applyUsage v { st with isFirstChunk := false }))
            (firstChunkEvents v st) [] hfc1 hfc2 rfl rfl
          rw [List.append_nil] at hcore
          rw [← h1, ← h2]
          exact ⟨fun ht => hcore.1 (hfr3.trans ht),
            fun ht => hcore.2 (hfr3.trans ht)⟩
        · rcases hp : processToolCallDeltas jsonOk tds
              ((textStep tid d (reasoningStep rid d
                (applyFinishReason (some c)
                  (applyUsage v { st with isFirstChunk := false }))).2).2).toolCalls
            with ⟨tevs, tc2, terr⟩
          simp only [transformChunk, hch, hcd, htc, hp] at h
          injection h with h1 h23
          injection h23 with h2 h3
          have htv1 : tevs.countP isReasoningStartEvent = 0 := by
            have h0 := ptcdEvents_countP_eq_zero jsonOk tds
              ((textStep tid d (reasoningStep rid d
                (applyFinishReason (some c)
                  (applyUsage v { st with isFirstChunk := false }))).2).2).toolCalls
              isReasoningStartEvent (fun e he => (isToolEvent_cross e he).2.2.1)
            rw [hp] at h0
            exact h0
          have htv2 : tevs.countP isReasoningDeltaEvent = 0 := by
            have h0 := ptcdEvents_countP_eq_zero jsonOk tds
              ((textStep tid d (reasoningStep rid d
                (applyFinishReason (some c)
                  (applyUsage v { st with isFirstChunk := false }))).2).2).toolCalls
              isReasoningDeltaEvent (fun e he => (isToolEvent_cross e he).2.2.2.1)
            rw [hp] at h0
            exact h0
          have hcore := reasoningFacts_core tid rid d
            (applyFinishReason (some c) (applyUsage v { st with isFirstChunk := false }))
            (firstChunkEvents v st) tevs hfc1 hfc2 htv1 htv2
          rw [← h1, ← h2]
          exact ⟨fun ht => hcore.1 (hfr3.trans ht),
            fun ht => hcore.2 (hfr3.trans ht)⟩



theorem transformChunk_toolCalls_frame (jsonOk : String → Bool) (tid rid : String)
    (v : SarvamChunkValue) (st : StreamState) (d : SarvamDelta) :
    ((textStep tid d (reasoningStep rid d
      (applyFinishReason v.choices.head?
        (applyUsage v { st with isFirstChunk := false }))).2).2).toolCalls
      = st.toolCalls := by
  rw [(textStep_frames _ _ _).1, (reasoningStep_frames _ _ _).1,
    (applyFinishReason_frames _ _).1, (applyUsage_frames _ _).1]

theorem blockThree_no_tool (jsonOk : String → Bool) (tid rid : String)
    (v : SarvamChunkValue) (st : StreamState) (d : SarvamDelta) (st3 : StreamState) :
    ∀ e ∈ firstChunkEvents v st ++ (reasoningStep rid d st3).1 ++
        (textStep tid d (reasoningStep rid d st3).2).1,
      isToolInputDeltaEvent e = false ∧ isToolCallEvent e = false := by
  intro e he
  rcases List.mem_append.mp he with he | he
  · rcases List.mem_append.mp he with he | he
    · rcases firstChunkEvents_classify v st e he with rfl | rfl <;> exact ⟨rfl, rfl⟩
    · rcases reasoningStep_classify rid d st3 e he with rfl | ⟨s, rfl⟩ <;>
        exact ⟨rfl, rfl⟩
  · rcases textStep_classify tid d _ e he with rfl | ⟨s, rfl⟩ <;> exact ⟨rfl, rfl⟩

theorem transformChunk_toolInv (jsonOk : String → Bool) (tid rid : String)
    (ch : StreamChunk) (st : StreamState) (evs0 evs1 : List StreamEvent)
    (st1 : StreamState) (err : Option StreamError)
    (h : transformChunk jsonOk tid rid ch st = (evs1, st1, err))
    (hinv : ∀ (i : Nat) (c : ToolCallState), st.toolCalls i = some c →
      StreamEvent.toolInputStart c.id c.name ∈ evs0)
    (hok : startOkTool evs0) :
    (∀ (i : Nat) (c : ToolCallState), st1.toolCalls i = some c →
      StreamEvent.toolInputStart c.id c.name ∈ evs0 ++ evs1) ∧
    startOkTool (evs0 ++ evs1) := by
  cases ch with
  | failure =>
    simp only [transformChunk] at h
    injection h with h1 h23
    injection h23 with h2 h3
    subst h1
    have htc : st1.toolCalls = st.toolCalls := by rw [← h2]
    refine ⟨fun i c hc => List.mem_append_left _ (hinv i c (htc ▸ hc)), ?_⟩
    exact startOkTool_append_no_delta hok (fun e he => by
      simp only [List.mem_singleton] at he
      subst he; rfl)
  | errorValue =>
    simp only [transformChunk] at h
    injection h with h1 h23
    injection h23 with h2 h3
    subst h1
    have htc : st1.toolCalls = st.toolCalls := by rw [← h2]
    refine ⟨fun i c hc => List.mem_append_left _ (hinv i c (htc ▸ hc)), ?_⟩
    exact startOkTool_append_no_delta hok (fun e he => by
      simp only [List.mem_singleton] at he
      subst he; rfl)
  | value v =>
    have hfc : ∀ e ∈ firstChunkEvents v st, isToolInputDeltaEvent e = false :=
      fun e he => by
        rcases firstChunkEvents_classify v st e he with rfl | rfl <;> rfl
    have hfr3 : (applyFinishReason v.choices.head?
        (applyUsage v { st with isFirstChunk := false })).toolCalls = st.toolCalls := by
      rw [(applyFinishReason_frames _ _).1, (applyUsage_frames _ _).1]
    rcases hch : v.choices.head? with _ | c
    · rw [hch] at hfr3
      simp only [transformChunk, hch] at h
      injection h with h1 h23
      injection h23 with h2 h3
      subst h1
      have htc : st1.toolCalls = st.toolCalls := by rw [← h2]; exact hfr3
      exact ⟨fun i c hc => List.mem_append_left _ (hinv i c (htc ▸ hc)),
        startOkTool_append_no_delta hok hfc⟩
    · rw [hch] at hfr3
      rcases hcd : c.delta with _ | d
      · simp only [transformChunk, hch, hcd] at h
        injection h with h1 h23
        injection h23 with h2 h3
        subst h1
        have htc : st1.toolCalls = st.toolCalls := by rw [← h2]; exact hfr3
        exact ⟨fun i c hc => List.mem_append_left _ (hinv i c (htc ▸ hc)),
          startOkTool_append_no_delta hok hfc⟩
      · have hTC := transformChunk_toolCalls_frame jsonOk tid rid v st d
        rw [hch] at hTC
        have hblock := blockThree_no_tool jsonOk tid rid v st d
          (applyFinishReason (some c) (applyUsage v { st with isFirstChunk := false }))
        rcases htc : d.tool_calls with _ | tds
        · simp only [transformChunk, hch, hcd, htc] at h
          injection h with h1 h23
          injection h23 with h2 h3
          subst h1
          have htcs : st1.toolCalls = st.toolCalls := by rw [← h2]; exact hTC
          refine ⟨fun i c hc => List.mem_append_left _ (hinv i c (htcs ▸ hc)), ?_⟩
          exact startOkTool_append_no_delta hok (fun e he => (hblock e he).1)
        · rcases hp : processToolCallDeltas jsonOk tds
              ((textStep tid d (reasoningStep rid d
                (applyFinishReason (some c)
                  (applyUsage v { st with isFirstChunk := false }))).2).2).toolCalls
            with ⟨tevs, tc2, terr⟩
          simp only [transformChunk, hch, hcd, htc, hp] at h
          injection h with h1 h23
          injection h23 with h2 h3
          have hinv2 : ∀ (i : Nat) (cc : ToolCallState),
              ((textStep tid d (reasoningStep rid d
                (applyFinishReason (some c)
                  (applyUsage v { st with isFirstChunk := false }))).2).2).toolCalls i
                = some cc →
              StreamEvent.toolInputStart cc.id cc.name ∈
                evs0 ++ (firstChunkEvents v st ++ (reasoningStep rid d
                  (applyFinishReason (some c)
                    (applyUsage v { st with isFirstChunk := false }))).1 ++
                  (textStep tid d (reasoningStep rid d
                    (applyFinishReason (some c)
                      (applyUsage v { st with isFirstChunk := false }))).2).1) := by
            intro i cc hc
            rw [hTC] at hc
            exact List.mem_append_left _ (hinv i cc hc)
          have hok2 : startOkTool
              (evs0 ++ (firstChunkEvents v st ++ (reasoningStep rid d
                (applyFinishReason (some c)
                  (applyUsage v { st with isFirstChunk := false }))).1 ++
                (textStep tid d (reasoningStep rid d
                  (applyFinishReason (some c)
                    (applyUsage v { st with isFirstChunk := false }))).2).1)) :=
            startOkTool_append_no_delta hok (fun e he => (hblock e he).1)
          have hpi := ptcd_startInv jsonOk tds
            ((textStep tid d (reasoningStep rid d
              (applyFinishReason (some c)
                (applyUsage v { st with isFirstChunk := false }))).2).2).toolCalls
            (evs0 ++ (firstChunkEvents v st ++ (reasoningStep rid d
              (applyFinishReason (some c)
                (applyUsage v { st with isFirstChunk := false }))).1 ++
              (textStep tid d (reasoningStep rid d
                (applyFinishReason (some c)
                  (applyUsage v { st with isFirstChunk := false }))).2).1))
            hinv2 hok2
          rw [hp] at hpi
          constructor
          · intro i cc hc
            have : tc2 i = some cc := by rw [← h2] at hc; exact hc
            have hmem := hpi.1 i cc this
            rw [← h1]
            simpa [List.append_assoc] using hmem
          · have := hpi.2
            rw [← h1]
            simpa [List.append_assoc] using this



theorem transformChunk_toolCallOk (jsonOk : String → Bool) (tid rid : String)
    (ch : StreamChunk) (st : StreamState) (evs1 : List StreamEvent)
    (st1 : StreamState) (err : Option StreamError)
    (h : transformChunk jsonOk tid rid ch st = (evs1, st1, err)) :
    toolCallOk jsonOk evs1 := by
  cases ch with
  | failure =>
    simp only [transformChunk] at h
    injection h with h1 h23
    subst h1
    exact toolCallOk_of_no_call (fun e he => by
      simp only [List.mem_singleton] at he; subst he; rfl)
  | errorValue =>
    simp only [transformChunk] at h
    injection h with h1 h23
    subst h1
    exact toolCallOk_of_no_call (fun e he => by
      simp only [List.mem_singleton] at he; subst he; rfl)
  | value v =>
    have hfc : ∀ e ∈ firstChunkEvents v st, isToolCallEvent e = false :=
      fun e he => by
        rcases firstChunkEvents_classify v st e he with rfl | rfl <;> rfl
    rcases hch : v.choices.head? with _ | c
    · simp only [transformChunk, hch] at h
      injection h with h1 h23
      subst h1
      exact toolCallOk_of_no_call hfc
    · rcases hcd : c.delta with _ | d
      · simp only [transformChunk, hch, hcd] at h
        injection h with h1 h23
        subst h1
        exact toolCallOk_of_no_call hfc
      · have hblock := blockThree_no_tool jsonOk tid rid v st d
          (applyFinishReason (some c) (applyUsage v { st with isFirstChunk := false }))
        rcases htc : d.tool_calls with _ | tds
        · simp only [transformChunk, hch, hcd, htc] at h
          injection h with h1 h23
          subst h1
          exact toolCallOk_of_no_call (fun e he => (hblock e he).2)
        · rcases hp : processToolCallDeltas jsonOk tds
              ((textStep tid d (reasoningStep rid d
                (applyFinishReason (some c)
                  (applyUsage v { st with isFirstChunk := false }))).2).2).toolCalls
            with ⟨tevs, tc2, terr⟩
          simp only [transformChunk, hch, hcd, htc, hp] at h
          injection h with h1 h23
          subst h1
          have hptc := ptcd_toolCallOk jsonOk tds
            ((textStep tid d (reasoningStep rid d
              (applyFinishReason (some c)
                (applyUsage v { st with isFirstChunk := false }))).2).2).toolCalls
          rw [hp] at hptc
          exact toolCallOk_append (toolCallOk_of_no_call (fun e he => (hblock e he).2))
            hptc

theorem transformChunk_finished_entry (jsonOk : String → Bool) (tid rid : String)
    (ch : StreamChunk) (st : StreamState) (evs1 : List StreamEvent)
    (st1 : StreamState) (err : Option StreamError)
    (h : transformChunk jsonOk tid rid ch st = (evs1, st1, err))
    (i : Nat) (c0 : ToolCallState) (hc : st.toolCalls i = some c0)
    (hfin : c0.hasFinished = true) : st1.toolCalls i = some c0 := by
  cases ch with
  | failure =>
    simp only [transformChunk] at h
    injection h with h1 h23
    injection h23 with h2 h3
    rw [← h2]
    exact hc
  | errorValue =>
    simp only [transformChunk] at h
    injection h with h1 h23
    injection h23 with h2 h3
    rw [← h2]
    exact hc
  | value v =>
    have hfr3 : (applyFinishReason v.choices.head?
        (applyUsage v { st with isFirstChunk := false })).toolCalls = st.toolCalls := by
      rw [(applyFinishReason_frames _ _).1, (applyUsage_frames _ _).1]
    rcases hch : v.choices.head? with _ | c
    · rw [hch] at hfr3
      simp only [transformChunk, hch] at h
      injection h with h1 h23
      injection h23 with h2 h3
      rw [← h2]
      rw [hfr3]
      exact hc
    · rw [hch] at hfr3
      rcases hcd : c.delta with _ | d
      · simp only [transformChunk, hch, hcd] at h
        injection h with h1 h23
        injection h23 with h2 h3
        rw [← h2, hfr3]
        exact hc
      · have hTC := transformChunk_toolCalls_frame jsonOk tid rid v st d
        rw [hch] at hTC
        rcases htc : d.tool_calls with _ | tds
        · simp only [transformChunk, hch, hcd, htc] at h
          injection h with h1 h23
          injection h23 with h2 h3
          rw [← h2, hTC]
          exact hc
        · rcases hp : processToolCallDeltas jsonOk tds
              ((textStep tid d (reasoningStep rid d
                (applyFinishReason (some c)
                  (applyUsage v { st with isFirstChunk := false }))).2).2).toolCalls
            with ⟨tevs, tc2, terr⟩
          simp only [transformChunk, hch, hcd, htc, hp] at h
          injection h with h1 h23
          injection h23 with h2 h3
          rw [← h2]
          have := ptcd_finished_entry jsonOk tds
            ((textStep tid d (reasoningStep rid d
              (applyFinishReason (some c)
                (applyUsage v { st with isFirstChunk := false }))).2).2).toolCalls
            i c0 (by rw [hTC]; exact hc) hfin
          rw [hp] at this
          exact this



theorem textDeltaPayloads_append (xs ys : List StreamEvent) :
    textDeltaPayloads (xs ++ ys) = textDeltaPayloads xs ++ textDeltaPayloads ys :=
  List.filterMap_append xs ys _

theorem reasoningDeltaPayloads_append (xs ys : List StreamEvent) :
    reasoningDeltaPayloads (xs ++ ys) =
      reasoningDeltaPayloads xs ++ reasoningDeltaPayloads ys :=
  List.filterMap_append xs ys _

theorem transformChunk_payloads (jsonOk : String → Bool) (tid rid : String)
    (ch : StreamChunk) (st : StreamState) (evs1 : List StreamEvent)
    (st1 : StreamState) (err : Option StreamError)
    (h : transformChunk jsonOk tid rid ch st = (evs1, st1, err)) :
    textDeltaPayloads evs1 =
      (chunkTextFragments ch).filter (fun t => decide (0 < t.length)) ∧
    reasoningDeltaPayloads evs1 =
      (chunkReasoningFragments ch).filter (fun t => decide (0 < t.length)) := by
  cases ch with
  | failure =>
    simp only [transformChunk] at h
    injection h with h1 h23
    subst h1
    exact ⟨rfl, rfl⟩
  | errorValue =>
    simp only [transformChunk] at h
    injection h with h1 h23
    subst h1
    exact ⟨rfl, rfl⟩
  | value v =>
    have hfcT : textDeltaPayloads (firstChunkEvents v st) = [] :=
      List.filterMap_eq_nil_iff.mpr (fun e he => by
        rcases firstChunkEvents_classify v st e he with rfl | rfl <;> rfl)
    have hfcR : reasoningDeltaPayloads (firstChunkEvents v st) = [] :=
      List.filterMap_eq_nil_iff.mpr (fun e he => by
        rcases firstChunkEvents_classify v st e he with rfl | rfl <;> rfl)
    rcases hch : v.choices.head? with _ | c
    · simp only [transformChunk, hch] at h
      injection h with h1 h23
      subst h1
      simp only [chunkTextFragments, chunkReasoningFragments, hch]
      exact ⟨hfcT, hfcR⟩
    · rcases hcd : c.delta with _ | d
      · simp only [transformChunk, hch, hcd] at h
        injection h with h1 h23
        subst h1
        simp only [chunkTextFragments, chunkReasoningFragments, hch, hcd]
        exact ⟨hfcT, hfcR⟩
      · have hRT : textDeltaPayloads ((reasoningStep rid d
            (applyFinishReason (some c)
              (applyUsage v { st with isFirstChunk := false }))).1) = [] :=
          List.filterMap_eq_nil_iff.mpr (fun e he => by
            rcases reasoningStep_classify rid d _ e he with rfl | ⟨s, rfl⟩ <;> rfl)
        have hTR : reasoningDeltaPayloads ((textStep tid d (reasoningStep rid d
            (applyFinishReason (some c)
              (applyUsage v { st with isFirstChunk := false }))).2).1) = [] :=
          List.filterMap_eq_nil_iff.mpr (fun e he => by
            rcases textStep_classify tid d _ e he with rfl | ⟨s, rfl⟩ <;> rfl)
        have hTpay := textStep_payloads tid d (reasoningStep rid d
          (applyFinishReason (some c)
            (applyUsage v { st with isFirstChunk := false }))).2
        have hRpay := reasoningStep_payloads rid d
          (applyFinishReason (some c)
            (applyUsage v { st with isFirstChunk := false }))
        have hfragT : (chunkTextFragments (StreamChunk.value v)).filter
            (fun t => decide (0 < t.length)) =
            (match d.content with
             | some t => if t.length > 0 then [t] else []
             | none => []) := by
          simp only [chunkTextFragments, hch, hcd]
          rcases d.content with _ | t
          · rfl
          · by_cases hl : 0 < t.length <;> simp [List.filter, hl]
        have hfragR : (chunkReasoningFragments (StreamChunk.value v)).filter
            (fun t => decide (0 < t.length)) =
            (match d.reasoning with
             | some r => if r.length > 0 then [r] else []
             | none => []) := by
          simp only [chunkReasoningFragments, hch, hcd]
          rcases d.reasoning with _ | r
          · rfl
          · by_cases hl : 0 < r.length <;> simp [List.filter, hl]
        rcases htc : d.tool_calls with _ | tds
        · simp only [transformChunk, hch, hcd, htc] at h
          injection h with h1 h23
          subst h1
          constructor
          · rw [textDeltaPayloads_append, textDeltaPayloads_append, hfcT, hRT,
              hTpay, hfragT]
            try simp only [List.nil_append, List.append_nil]
            try rfl
          · rw [reasoningDeltaPayloads_append, reasoningDeltaPayloads_append,
              hfcR, hTR, hRpay, hfragR]
            try simp only [List.nil_append, List.append_nil]
            try rfl
        · rcases hp : processToolCallDeltas jsonOk tds
              ((textStep tid d (reasoningStep rid d
                (applyFinishReason (some c)
                  (applyUsage v { st with isFirstChunk := false }))).2).2).toolCalls
            with ⟨tevs, tc2, terr⟩
          simp only [transformChunk, hch, hcd, htc, hp] at h
          injection h with h1 h23
          subst h1
          have htoolT : textDeltaPayloads tevs = [] :=
            List.filterMap_eq_nil_iff.mpr (fun e he => by
              have hT := ptcd_events_tool jsonOk tds
                ((textStep tid d (reasoningStep rid d
                  (applyFinishReason (some c)
                    (applyUsage v { st with isFirstChunk := false }))).2).2).toolCalls
              rw [hp] at hT
              have := hT e he
              cases e <;> simp_all [isToolEvent])
          have htoolR : reasoningDeltaPayloads tevs = [] :=
            List.filterMap_eq_nil_iff.mpr (fun e he => by
              have hT := ptcd_events_tool jsonOk tds
                ((textStep tid d (reasoningStep rid d
                  (applyFinishReason (some c)
                    (applyUsage v { st with isFirstChunk := false }))).2).2).toolCalls
              rw [hp] at hT
              have := hT e he
              cases e <;> simp_all [isToolEvent])
          constructor
          · rw [textDeltaPayloads_append, textDeltaPayloads_append,
              textDeltaPayloads_append, hfcT, hRT, htoolT, hTpay, hfragT]
            try simp only [List.nil_append, List.append_nil]
            try rfl
          · rw [reasoningDeltaPayloads_append, reasoningDeltaPayloads_append,
              reasoningDeltaPayloads_append, hfcR, hTR, htoolR, hRpay, hfragR]
            try simp only [List.nil_append, List.append_nil]
            try rfl


/-! ## Facts about whole runs of the transform -/


theorem runTransform_textFacts (jsonOk : String → Bool) (tid rid : String)
    (chunks : List StreamChunk) :
    ∀ (st : StreamState) (evs : List StreamEvent) (st' : StreamState)
      (err : Option StreamError),
      runTransform jsonOk tid rid chunks st = (evs, st', err) →
      (st.textStarted = true →
        st'.textStarted = true ∧ evs.countP isTextStartEvent = 0) ∧
      (st.textStarted = false →
        (st'.textStarted = false ∧ evs.countP isTextStartEvent = 0 ∧
          evs.countP isTextDeltaEvent = 0) ∨
        (st'.textStarted = true ∧ evs.countP isTextStartEvent = 1 ∧
          precededBy isTextStartEvent isTextDeltaEvent evs)) := by
  induction chunks with
  | nil =>
    intro st evs st' err h
    simp only [runTransform] at h
    injection h with h1 h23
    injection h23 with h2 h3
    subst h1; subst h2
    exact ⟨fun ht => ⟨ht, rfl⟩, fun ht => Or.inl ⟨ht, rfl, rfl⟩⟩
  | cons c cs ih =>
    intro st evs st' err h
    unfold runTransform at h
    rcases hc : transformChunk jsonOk tid rid c st with ⟨evs1, st1, err1⟩
    rw [hc] at h
    have hcf := transformChunk_textFacts jsonOk tid rid c st evs1 st1 err1 hc
    cases err1 with
    | some e1 =>
      simp only at h
      injection h with h1 h23
      injection h23 with h2 h3
      subst h1; subst h2
      exact hcf
    | none =>
      simp only at h
      rcases hr : runTransform jsonOk tid rid cs st1 with ⟨evs2, st2, err2⟩
      rw [hr] at h
      injection h with h1 h23
      injection h23 with h2 h3
      subst h1; subst h2
      have hrf := ih st1 evs2 _ err2 hr
      constructor
      · intro ht
        obtain ⟨hst1, hcnt1⟩ := hcf.1 ht
        obtain ⟨hst2, hcnt2⟩ := hrf.1 hst1
        exact ⟨hst2, by simp [List.countP_append, hcnt1, hcnt2]⟩
      · intro ht
        rcases hcf.2 ht with ⟨hst1, hcs, hcd⟩ | ⟨hst1, hcs, hprec⟩
        · rcases hrf.2 hst1 with ⟨hst2, hcs2, hcd2⟩ | ⟨hst2, hcs2, hprec2⟩
          · exact Or.inl ⟨hst2, by simp [List.countP_append, hcs, hcs2],
              by simp [List.countP_append, hcd, hcd2]⟩
          · refine Or.inr ⟨hst2, by simp [List.countP_append, hcs, hcs2], ?_⟩
            exact precededBy_append
              (precededBy_of_no_b (all_false_of_countP_zero hcd)) hprec2
        · obtain ⟨hst2, hcs2⟩ := hrf.1 hst1
          refine Or.inr ⟨hst2, by simp [List.countP_append, hcs, hcs2], ?_⟩
          refine precededBy_append_left_mem hprec ?_
          have : 0 < evs1.countP isTextStartEvent := by omega
          exact List.countP_pos_iff.mp this

theorem runTransform_reasoningFacts (jsonOk : String → Bool) (tid rid : String)
    (chunks : List StreamChunk) :
    ∀ (st : StreamState) (evs : List StreamEvent) (st' : StreamState)
      (err : Option StreamError),
      runTransform jsonOk tid rid chunks st = (evs, st', err) →
      (st.reasoningStarted = true →
        st'.reasoningStarted = true ∧ evs.countP isReasoningStartEvent = 0) ∧
      (st.reasoningStarted = false →
        (st'.reasoningStarted = false ∧ evs.countP isReasoningStartEvent = 0 ∧
          evs.countP isReasoningDeltaEvent = 0) ∨
        (st'.reasoningStarted = true ∧ evs.countP isReasoningStartEvent = 1 ∧
          precededBy isReasoningStartEvent isReasoningDeltaEvent evs)) := by
  induction chunks with
  | nil =>
    intro st evs st' err h
    simp only [runTransform] at h
    injection h with h1 h23
    injection h23 with h2 h3
    subst h1; subst h2
    exact ⟨fun ht => ⟨ht, rfl⟩, fun ht => Or.inl ⟨ht, rfl, rfl⟩⟩
  | cons c cs ih =>
    intro st evs st' err h
    unfold runTransform at h
    rcases hc : transformChunk jsonOk tid rid c st with ⟨evs1, st1, err1⟩
    rw [hc] at h
    have hcf := transformChunk_reasoningFacts jsonOk tid rid c st evs1 st1 err1 hc
    cases err1 with
    | some e1 =>
      simp only at h
      injection h with h1 h23
      injection h23 with h2 h3
      subst h1; subst h2
      exact hcf
    | none =>
      simp only at h
      rcases hr : runTransform jsonOk tid rid cs st1 with ⟨evs2, st2, err2⟩
      rw [hr] at h
      injection h with h1 h23
      injection h23 with h2 h3
      subst h1; subst h2
      have hrf := ih st1 evs2 _ err2 hr
      constructor
      · intro ht
        obtain ⟨hst1, hcnt1⟩ := hcf.1 ht
        obtain ⟨hst2, hcnt2⟩ := hrf.1 hst1
        exact ⟨hst2, by simp [List.countP_append, hcnt1, hcnt2]⟩
      · intro ht
        rcases hcf.2 ht with ⟨hst1, hcs, hcd⟩ | ⟨hst1, hcs, hprec⟩
        · rcases hrf.2 hst1 with ⟨hst2, hcs2, hcd2⟩ | ⟨hst2, hcs2, hprec2⟩
          · exact Or.inl ⟨hst2, by simp [List.countP_append, hcs, hcs2],
              by simp [List.countP_append, hcd, hcd2]⟩
          · refine Or.inr ⟨hst2, by simp [List.countP_append, hcs, hcs2], ?_⟩
            exact precededBy_append
              (precededBy_of_no_b (all_false_of_countP_zero hcd)) hprec2
        · obtain ⟨hst2, hcs2⟩ := hrf.1 hst1
          refine Or.inr ⟨hst2, by simp [List.countP_append, hcs, hcs2], ?_⟩
          refine precededBy_append_left_mem hprec ?_
          have : 0 < evs1.countP isReasoningStartEvent := by omega
          exact List.countP_pos_iff.mp this



theorem foldl_overwrite {α β : Type} (f : β → α) (l : List β) (a : α) :
    l.foldl (fun _ u => f u) a = ((l.getLast?).map f).getD a := by
  induction l generalizing a with
  | nil => rfl
  | cons x xs ih =>
    rw [List.foldl_cons, ih (f x)]
    cases xs with
    | nil => rfl
    | cons y ys =>
      rw [List.getLast?_cons_cons]
      have h : ∃ z, (y :: ys).getLast? = some z := by
        have h2 : (y :: ys).getLast?.isSome = true := by
          rw [List.getLast?_isSome]
          simp
        exact Option.isSome_iff_exists.mp h2
      obtain ⟨z, hz⟩ := h
      rw [hz]
      rfl

theorem runTransform_flushCounts (jsonOk : String → Bool) (tid rid : String)
    (chunks : List StreamChunk) :
    ∀ (st : StreamState) (evs : List StreamEvent) (st' : StreamState)
      (err : Option StreamError),
      runTransform jsonOk tid rid chunks st = (evs, st', err) →
      evs.countP isTextEndEvent = 0 ∧ evs.countP isReasoningEndEvent = 0 ∧
      evs.countP isFinishEvent = 0 := by
  induction chunks with
  | nil =>
    intro st evs st' err h
    simp only [runTransform] at h
    injection h with h1 h23
    subst h1
    exact ⟨rfl, rfl, rfl⟩
  | cons c cs ih =>
    intro st evs st' err h
    unfold runTransform at h
    rcases hc : transformChunk jsonOk tid rid c st with ⟨evs1, st1, err1⟩
    rw [hc] at h
    have hcf := transformChunk_stateFacts jsonOk tid rid c st evs1 st1 err1 hc
    cases err1 with
    | some e1 =>
      simp only at h
      injection h with h1 h23
      subst h1
      exact ⟨hcf.2.2.1, hcf.2.2.2.1, hcf.2.2.2.2⟩
    | none =>
      simp only at h
      rcases hr : runTransform jsonOk tid rid cs st1 with ⟨evs2, st2, err2⟩
      rw [hr] at h
      injection h with h1 h23
      subst h1
      have hrf := ih st1 evs2 st2 err2 hr
      refine ⟨?_, ?_, ?_⟩ <;>
        simp [List.countP_append, hcf.2.2.1, hcf.2.2.2.1, hcf.2.2.2.2,
          hrf.1, hrf.2.1, hrf.2.2]

theorem runTransform_usageFinish (jsonOk : String → Bool) (tid rid : String)
    (chunks : List StreamChunk) :
    ∀ (st : StreamState) (evs : List StreamEvent) (st' : StreamState),
      runTransform jsonOk tid rid chunks st = (evs, st', none) →
      st'.usage = (chunks.filterMap chunkUsage).foldl
        (fun _ u => (⟨u.prompt_tokens, u.completion_tokens⟩ : Usage)) st.usage ∧
      st'.finishReason = (chunks.filterMap chunkFinishReasonUpdate).foldl
        (fun _ fr => fr) st.finishReason := by
  induction chunks with
  | nil =>
    intro st evs st' h
    simp only [runTransform] at h
    injection h with h1 h23
    injection h23 with h2 h3
    subst h2
    exact ⟨rfl, rfl⟩
  | cons c cs ih =>
    intro st evs st' h
    unfold runTransform at h
    rcases hc : transformChunk jsonOk tid rid c st with ⟨evs1, st1, err1⟩
    rw [hc] at h
    have hcf := transformChunk_stateFacts jsonOk tid rid c st evs1 st1 err1 hc
    cases err1 with
    | some e1 =>
      simp only at h
      injection h with h1 h23
      injection h23 with h2 h3
      exact absurd h3.symm (by simp)
    | none =>
      simp only at h
      rcases hr : runTransform jsonOk tid rid cs st1 with ⟨evs2, st2, err2⟩
      rw [hr] at h
      injection h with h1 h23
      injection h23 with h2 h3
      subst h2
      cases err2 with
      | some e2 => exact absurd h3.symm (by simp)
      | none =>
        have hrf := ih st1 evs2 st2 hr
        constructor
        · rw [hrf.1, hcf.1]
          rcases hcu : chunkUsage c with _ | u <;>
            simp [List.filterMap_cons, hcu]
        · rw [hrf.2, hcf.2.1]
          rcases hcu : chunkFinishReasonUpdate c with _ | fr <;>
            simp [List.filterMap_cons, hcu]



theorem runTransform_toolInv (jsonOk : String → Bool) (tid rid : String)
    (chunks : List StreamChunk) :
    ∀ (st : StreamState) (evs0 evs : List StreamEvent) (st' : StreamState)
      (err : Option StreamError),
      runTransform jsonOk tid rid chunks st = (evs, st', err) →
      (∀ (i : Nat) (c : ToolCallState), st.toolCalls i = some c →
        StreamEvent.toolInputStart c.id c.name ∈ evs0) →
      startOkTool evs0 →
      (∀ (i : Nat) (c : ToolCallState), st'.toolCalls i = some c →
        StreamEvent.toolInputStart c.id c.name ∈ evs0 ++ evs) ∧
      startOkTool (evs0 ++ evs) := by
  induction chunks with
  | nil =>
    intro st evs0 evs st' err h hinv hok
    simp only [runTransform] at h
    injection h with h1 h23
    injection h23 with h2 h3
    subst h1; subst h2
    simp only [List.append_nil]
    exact ⟨hinv, hok⟩
  | cons c cs ih =>
    intro st evs0 evs st' err h hinv hok
    unfold runTransform at h
    rcases hc : transformChunk jsonOk tid rid c st with ⟨evs1, st1, err1⟩
    rw [hc] at h
    have hcf := transformChunk_toolInv jsonOk tid rid c st evs0 evs1 st1 err1 hc
      hinv hok
    cases err1 with
    | some e1 =>
      simp only at h
      injection h with h1 h23
      injection h23 with h2 h3
      subst h1; subst h2
      exact hcf
    | none =>
      simp only at h
      rcases hr : runTransform jsonOk tid rid cs st1 with ⟨evs2, st2, err2⟩
      rw [hr] at h
      injection h with h1 h23
      injection h23 with h2 h3
      subst h1; subst h2
      have hrf := ih st1 (evs0 ++ evs1) evs2 _ err2 hr hcf.1 hcf.2
      rw [← List.append_assoc] at *
      exact hrf

theorem runTransform_toolCallOk (jsonOk : String → Bool) (tid rid : String)
    (chunks : List StreamChunk) :
    ∀ (st : StreamState) (evs : List StreamEvent) (st' : StreamState)
      (err : Option StreamError),
      runTransform jsonOk tid rid chunks st = (evs, st', err) →
      toolCallOk jsonOk evs := by
  induction chunks with
  | nil =>
    intro st evs st' err h
    simp only [runTransform] at h
    injection h with h1 h23
    subst h1
    intro k id name args hk
    simp at hk
  | cons c cs ih =>
    intro st evs st' err h
    unfold runTransform at h
    rcases hc : transformChunk jsonOk tid rid c st with ⟨evs1, st1, err1⟩
    rw [hc] at h
    have hcf := transformChunk_toolCallOk jsonOk tid rid c st evs1 st1 err1 hc
    cases err1 with
    | some e1 =>
      simp only at h
      injection h with h1 h23
      subst h1
      exact hcf
    | none =>
      simp only at h
      rcases hr : runTransform jsonOk tid rid cs st1 with ⟨evs2, st2, err2⟩
      rw [hr] at h
      injection h with h1 h23
      subst h1
      exact toolCallOk_append hcf (ih st1 evs2 st2 err2 hr)

theorem runTransform_finished_entry (jsonOk : String → Bool) (tid rid : String)
    (chunks : List StreamChunk) :
    ∀ (st : StreamState) (evs : List StreamEvent) (st' : StreamState)
      (err : Option StreamError),
      runTransform jsonOk tid rid chunks st = (evs, st', err) →
      ∀ (i : Nat) (c0 : ToolCallState), st.toolCalls i = some c0 →
        c0.hasFinished = true → st'.toolCalls i = some c0 := by
  induction chunks with
  | nil =>
    intro st evs st' err h i c0 hc hfin
    simp only [runTransform] at h
    injection h with h1 h23
    injection h23 with h2 h3
    rw [← h2]
    exact hc
  | cons c cs ih =>
    intro st evs st' err h i c0 hc hfin
    unfold runTransform at h
    rcases hcteq : transformChunk jsonOk tid rid c st with ⟨evs1, st1, err1⟩
    rw [hcteq] at h
    have hcf := transformChunk_finished_entry jsonOk tid rid c st evs1 st1 err1
      hcteq i c0 hc hfin
    cases err1 with
    | some e1 =>
      simp only at h
      injection h with h1 h23
      injection h23 with h2 h3
      rw [← h2]
      exact hcf
    | none =>
      simp only at h
      rcases hr : runTransform jsonOk tid rid cs st1 with ⟨evs2, st2, err2⟩
      rw [hr] at h
      injection h with h1 h23
      injection h23 with h2 h3
      rw [← h2]
      exact ih st1 evs2 st2 err2 hr i c0 hcf hfin

theorem runTransform_payloads (jsonOk : String → Bool) (tid rid : String)
    (chunks : List StreamChunk) :
    ∀ (st : StreamState) (evs : List StreamEvent) (st' : StreamState),
      runTransform jsonOk tid rid chunks st = (evs, st', none) →
      textDeltaPayloads evs =
        (chunks.flatMap chunkTextFragments).filter (fun t => decide (0 < t.length)) ∧
      reasoningDeltaPayloads evs =
        (chunks.flatMap chunkReasoningFragments).filter
          (fun t => decide (0 < t.length)) := by
  induction chunks with
  | nil =>
    intro st evs st' h
    simp only [runTransform] at h
    injection h with h1 h23
    subst h1
    exact ⟨rfl, rfl⟩
  | cons c cs ih =>
    intro st evs st' h
    unfold runTransform at h
    rcases hc : transformChunk jsonOk tid rid c st with ⟨evs1, st1, err1⟩
    rw [hc] at h
    have hcf := transformChunk_payloads jsonOk tid rid c st evs1 st1 err1 hc
    cases err1 with
    | some e1 =>
      simp only at h
      injection h with h1 h23
      injection h23 with h2 h3
      exact absurd h3.symm (by simp)
    | none =>
      simp only at h
      rcases hr : runTransform jsonOk tid rid cs st1 with ⟨evs2, st2, err2⟩
      rw [hr] at h
      injection h with h1 h23
      injection h23 with h2 h3
      subst h1
      cases err2 with
      | some e2 => exact absurd h3.symm (by simp)
      | none =>
        have hrf := ih st1 evs2 st2 hr
        constructor
        · rw [textDeltaPayloads_append, hcf.1, hrf.1, List.flatMap_cons,
            List.filter_append]
        · rw [reasoningDeltaPayloads_append, hcf.2, hrf.2, List.flatMap_cons,
            List.filter_append]


/-! ## Flush and whole-stream facts, and the verified claims -/


theorem flushEvents_classify (tid rid : String) (st : StreamState) :
    ∀ e ∈ flushEvents tid rid st,
      e = StreamEvent.reasoningEnd rid ∨ e = StreamEvent.textEnd tid ∨
      e = StreamEvent.finish st.finishReason st.usage := by
  unfold flushEvents
  repeat' split
  all_goals intro e he
  all_goals simp only [List.mem_append, List.mem_cons, List.mem_singleton,
    List.not_mem_nil, or_false, false_or] at he
  all_goals tauto

theorem flushEvents_countP (tid rid : String) (st : StreamState)
    (p : StreamEvent → Bool) (h1 : ∀ i, p (StreamEvent.reasoningEnd i) = false)
    (h2 : ∀ i, p (StreamEvent.textEnd i) = false)
    (h3 : ∀ fr u, p (StreamEvent.finish fr u) = false) :
    (flushEvents tid rid st).countP p = 0 :=
  countP_eq_zero_of_false fun e he => by
    rcases flushEvents_classify tid rid st e he with rfl | rfl | rfl
    · exact h1 _
    · exact h2 _
    · exact h3 _ _

theorem flushEvents_textEnd_count (tid rid : String) (st : StreamState) :
    (flushEvents tid rid st).countP isTextEndEvent =
      (if st.textStarted then 1 else 0) := by
  unfold flushEvents
  repeat' split
  all_goals rfl

theorem flushEvents_reasoningEnd_count (tid rid : String) (st : StreamState) :
    (flushEvents tid rid st).countP isReasoningEndEvent =
      (if st.reasoningStarted then 1 else 0) := by
  unfold flushEvents
  repeat' split
  all_goals rfl

theorem flushEvents_getLast (tid rid : String) (st : StreamState) :
    (flushEvents tid rid st).getLast? =
      some (StreamEvent.finish st.finishReason st.usage) := by
  unfold flushEvents
  repeat' split
  all_goals rfl

theorem doStreamEvents_eq_of_run (jsonOk : String → Bool) (tid rid : String)
    (chunks : List StreamChunk) (evs : List StreamEvent) (st' : StreamState)
    (h : runTransform jsonOk tid rid chunks initialStreamState = (evs, st', none)) :
    doStreamEvents jsonOk tid rid chunks = evs ++ flushEvents tid rid st' := by
  unfold doStreamEvents
  rw [h]

theorem doStreamEvents_getLast (jsonOk : String → Bool) (tid rid : String)
    (chunks : List StreamChunk) (evs : List StreamEvent) (st' : StreamState)
    (h : runTransform jsonOk tid rid chunks initialStreamState = (evs, st', none)) :
    (doStreamEvents jsonOk tid rid chunks).getLast? =
      some (StreamEvent.finish st'.finishReason st'.usage) := by
  rw [doStreamEvents_eq_of_run jsonOk tid rid chunks evs st' h]
  rw [List.getLast?_append_of_ne_nil, flushEvents_getLast]
  unfold flushEvents
  repeat' split
  all_goals simp



/-- Claim C1: in the `doStream` event stream, a `tool-call` finalization event
is emitted only when its input (the accumulated arguments string for that
index) is valid JSON, immediately preceded by `tool-input-end`; emitting it
marks the index finished, and for a finished index every subsequent fragment
(including trailing empty-argument fragments) is ignored: no further
`tool-input-delta` or `tool-call` events and no state change. -/
theorem claim_C1_tool_call_finalization (jsonOk : String → Bool) (tid rid : String)
    (chunks : List StreamChunk) :
    toolCallOk jsonOk (doStreamEvents jsonOk tid rid chunks) ∧
    (∀ (td : SarvamToolCallDelta) (tc : Nat → Option ToolCallState)
      (c : ToolCallState), tc td.index = some c → c.hasFinished = true →
      toolDeltaStep jsonOk td tc = ([], tc, none)) ∧
    (∀ (ch : StreamChunk) (st : StreamState) (evs1 : List StreamEvent)
      (st1 : StreamState) (err : Option StreamError),
      transformChunk jsonOk tid rid ch st = (evs1, st1, err) →
      ∀ (i : Nat) (c : ToolCallState), st.toolCalls i = some c →
        c.hasFinished = true → st1.toolCalls i = some c) ∧
    (∀ (td : SarvamToolCallDelta) (tc : Nat → Option ToolCallState)
      (id n a : String),
      StreamEvent.toolCall id n a ∈ (toolDeltaStep jsonOk td tc).1 →
      jsonOk a = true ∧ ∃ c : ToolCallState,
        ((toolDeltaStep jsonOk td tc).2.1) td.index = some c ∧
        c.hasFinished = true ∧ c.id = id ∧ c.name = n ∧ c.arguments = a) := by
  refine ⟨?_, toolDeltaStep_finished_skip jsonOk,
    transformChunk_finished_entry jsonOk tid rid,
    toolDeltaStep_toolCall_finished jsonOk⟩
  unfold doStreamEvents
  rcases hr : runTransform jsonOk tid rid chunks initialStreamState
    with ⟨evs, st', err⟩
  have hrun := runTransform_toolCallOk jsonOk tid rid chunks initialStreamState
    evs st' err hr
  cases err with
  | some e => exact hrun
  | none =>
    refine toolCallOk_append hrun (toolCallOk_of_no_call ?_)
    intro e he
    rcases flushEvents_classify tid rid st' e he with rfl | rfl | rfl <;> rfl

theorem startFacts_of_run (jsonOk : String → Bool) (tid rid : String)
    (chunks : List StreamChunk) (evs : List StreamEvent) (st' : StreamState)
    (err : Option StreamError)
    (hr : runTransform jsonOk tid rid chunks initialStreamState = (evs, st', err))
    (tail : List StreamEvent)
    (htail : ∀ e ∈ tail, isTextStartEvent e = false ∧ isTextDeltaEvent e = false ∧
      isReasoningStartEvent e = false ∧ isReasoningDeltaEvent e = false ∧
      isToolInputDeltaEvent e = false) :
    (evs ++ tail).countP isTextStartEvent ≤ 1 ∧
    precededBy isTextStartEvent isTextDeltaEvent (evs ++ tail) ∧
    (evs ++ tail).countP isReasoningStartEvent ≤ 1 ∧
    precededBy isReasoningStartEvent isReasoningDeltaEvent (evs ++ tail) ∧
    startOkTool (evs ++ tail) := by
  have htf := runTransform_textFacts jsonOk tid rid chunks initialStreamState
    evs st' err hr
  have hrf := runTransform_reasoningFacts jsonOk tid rid chunks initialStreamState
    evs st' err hr
  have hti := runTransform_toolInv jsonOk tid rid chunks initialStreamState
    [] evs st' err hr (fun i c hc => by simp [initialStreamState] at hc)
    (fun k id s hk => by simp at hk)
  refine ⟨?_, ?_, ?_, ?_, ?_⟩
  · rw [List.countP_append,
      countP_eq_zero_of_false (fun e he => (htail e he).1)]
    rcases htf.2 rfl with ⟨_, hc, _⟩ | ⟨_, hc, _⟩ <;> omega
  · rcases htf.2 rfl with ⟨_, hc, hd⟩ | ⟨_, hc, hp⟩
    · exact precededBy_append (precededBy_of_no_b (all_false_of_countP_zero hd))
        (precededBy_of_no_b (fun e he => (htail e he).2.1))
    · exact precededBy_append hp
        (precededBy_of_no_b (fun e he => (htail e he).2.1))
  · rw [List.countP_append,
      countP_eq_zero_of_false (fun e he => (htail e he).2.2.1)]
    rcases hrf.2 rfl with ⟨_, hc, _⟩ | ⟨_, hc, _⟩ <;> omega
  · rcases hrf.2 rfl with ⟨_, hc, hd⟩ | ⟨_, hc, hp⟩
    · exact precededBy_append (precededBy_of_no_b (all_false_of_countP_zero hd))
        (precededBy_of_no_b (fun e he => (htail e he).2.2.2.1))
    · exact precededBy_append hp
        (precededBy_of_no_b (fun e he => (htail e he).2.2.2.1))
  · have hsok : startOkTool evs := by
      have := hti.2
      simpa using this
    exact startOkTool_append_no_delta hsok (fun e he => (htail e he).2.2.2.2)

/-- Claim C3: in the `doStream` event stream, a start event precedes the first
delta of each channel — `text-start` before any `text-delta` (emitted at most
once), `reasoning-start` before any `reasoning-delta` (at most once), and a
`tool-input-start` with matching id before any `tool-input-delta`; a
`tool-input-start` is never emitted for an index already registered, and a
registered index never becomes unregistered. -/
theorem claim_C3_start_events (jsonOk : String → Bool) (tid rid : String)
    (chunks : List StreamChunk) :
    (doStreamEvents jsonOk tid rid chunks).countP isTextStartEvent ≤ 1 ∧
    precededBy isTextStartEvent isTextDeltaEvent
      (doStreamEvents jsonOk tid rid chunks) ∧
    (doStreamEvents jsonOk tid rid chunks).countP isReasoningStartEvent ≤ 1 ∧
    precededBy isReasoningStartEvent isReasoningDeltaEvent
      (doStreamEvents jsonOk tid rid chunks) ∧
    startOkTool (doStreamEvents jsonOk tid rid chunks) ∧
    (∀ (td : SarvamToolCallDelta) (tc : Nat → Option ToolCallState)
      (c : ToolCallState), tc td.index = some c →
      ∀ e ∈ (toolDeltaStep jsonOk td tc).1, isToolInputStartEvent e = false) ∧
    (∀ (td : SarvamToolCallDelta) (tc : Nat → Option ToolCallState) (i : Nat),
      (tc i).isSome = true → (((toolDeltaStep jsonOk td tc).2.1) i).isSome = true) := by
  rcases hr : runTransform jsonOk tid rid chunks initialStreamState
    with ⟨evs, st', err⟩
  cases err with
  | some e =>
    have hout : doStreamEvents jsonOk tid rid chunks = evs ++ [] := by
      unfold doStreamEvents
      rw [hr, List.append_nil]
    have hmain := startFacts_of_run jsonOk tid rid chunks evs st' (some e) hr []
      (fun e2 he2 => by simp at he2)
    rw [hout]
    exact ⟨hmain.1, hmain.2.1, hmain.2.2.1, hmain.2.2.2.1, hmain.2.2.2.2,
      toolDeltaStep_no_start_present jsonOk, toolDeltaStep_monotone jsonOk⟩
  | none =>
    have hout : doStreamEvents jsonOk tid rid chunks =
        evs ++ flushEvents tid rid st' := by
      unfold doStreamEvents
      rw [hr]
    have hmain := startFacts_of_run jsonOk tid rid chunks evs st' none hr
      (flushEvents tid rid st')
      (fun e2 he2 => by
        rcases flushEvents_classify tid rid st' e2 he2 with rfl | rfl | rfl <;>
          exact ⟨rfl, rfl, rfl, rfl, rfl⟩)
    rw [hout]
    exact ⟨hmain.1, hmain.2.1, hmain.2.2.1, hmain.2.2.2.1, hmain.2.2.2.2,
      toolDeltaStep_no_start_present jsonOk, toolDeltaStep_monotone jsonOk⟩



/-- Claim C4: when every fragment has been processed (the transform did not
throw), the stream closes with the flush events: `text-end` is emitted exactly
once iff `text-start` was emitted and `reasoning-end` exactly once iff
`reasoning-start` was emitted, both after all fragment events and before the
terminal `finish` event, which is last. -/
theorem claim_C4_end_events (jsonOk : String → Bool) (tid rid : String)
    (chunks : List StreamChunk) (evs : List StreamEvent) (st' : StreamState)
    (h : runTransform jsonOk tid rid chunks initialStreamState = (evs, st', none)) :
    doStreamEvents jsonOk tid rid chunks =
      evs ++ ((if st'.reasoningStarted then [StreamEvent.reasoningEnd rid] else [])
        ++ (if st'.textStarted then [StreamEvent.textEnd tid] else [])
        ++ [StreamEvent.finish st'.finishReason st'.usage]) ∧
    evs.countP isTextEndEvent = 0 ∧
    evs.countP isReasoningEndEvent = 0 ∧
    (st'.textStarted = true ↔ evs.countP isTextStartEvent = 1) ∧
    (st'.reasoningStarted = true ↔ evs.countP isReasoningStartEvent = 1) ∧
    (doStreamEvents jsonOk tid rid chunks).countP isTextEndEvent =
      (if st'.textStarted then 1 else 0) ∧
    (doStreamEvents jsonOk tid rid chunks).countP isReasoningEndEvent =
      (if st'.reasoningStarted then 1 else 0) ∧
    (doStreamEvents jsonOk tid rid chunks).getLast? =
      some (StreamEvent.finish st'.finishReason st'.usage) := by
  have hout := doStreamEvents_eq_of_run jsonOk tid rid chunks evs st' h
  have hfc := runTransform_flushCounts jsonOk tid rid chunks initialStreamState
    evs st' none h
  have htf := runTransform_textFacts jsonOk tid rid chunks initialStreamState
    evs st' none h
  have hrf := runTransform_reasoningFacts jsonOk tid rid chunks initialStreamState
    evs st' none h
  have htiff : st'.textStarted = true ↔ evs.countP isTextStartEvent = 1 := by
    rcases htf.2 rfl with ⟨hs, hc, _⟩ | ⟨hs, hc, _⟩
    · constructor
      · intro hx; rw [hs] at hx; exact absurd hx (by simp)
      · intro hx; rw [hc] at hx; exact absurd hx (by simp)
    · exact ⟨fun _ => hc, fun _ => hs⟩
  have hriff : st'.reasoningStarted = true ↔
      evs.countP isReasoningStartEvent = 1 := by
    rcases hrf.2 rfl with ⟨hs, hc, _⟩ | ⟨hs, hc, _⟩
    · constructor
      · intro hx; rw [hs] at hx; exact absurd hx (by simp)
      · intro hx; rw [hc] at hx; exact absurd hx (by simp)
    · exact ⟨fun _ => hc, fun _ => hs⟩
  refine ⟨by rw [hout]; rfl, hfc.1, hfc.2.1, htiff, hriff, ?_, ?_,
    doStreamEvents_getLast jsonOk tid rid chunks evs st' h⟩
  · rw [hout, List.countP_append, hfc.1, flushEvents_textEnd_count]
    omega
  · rw [hout, List.countP_append, hfc.2.1, flushEvents_reasoningEnd_count]
    omega

/-- Claim C6: a fragment carrying `x_sarvam.usage` overwrites the tracked
usage with that fragment's values regardless of the previous value
(last-write-wins, not summed), so the terminal finish event reports the usage
of the last fragment that carried usage totals. -/
theorem claim_C6_usage_last_write (jsonOk : String → Bool) (tid rid : String)
    (chunks : List StreamChunk) (evs : List StreamEvent) (st' : StreamState)
    (h : runTransform jsonOk tid rid chunks initialStreamState = (evs, st', none)) :
    (doStreamEvents jsonOk tid rid chunks).getLast? =
      some (StreamEvent.finish st'.finishReason st'.usage) ∧
    st'.usage = (((chunks.filterMap chunkUsage).getLast?).map
      (fun u => (⟨u.prompt_tokens, u.completion_tokens⟩ : Usage))).getD emptyUsage ∧
    (∀ (v : SarvamChunkValue) (u : SarvamUsage) (st0 : StreamState),
      v.usage = some u →
      ((transformChunk jsonOk tid rid (StreamChunk.value v) st0).2.1).usage =
        ⟨u.prompt_tokens, u.completion_tokens⟩) := by
  have huf := runTransform_usageFinish jsonOk tid rid chunks initialStreamState
    evs st' h
  refine ⟨doStreamEvents_getLast jsonOk tid rid chunks evs st' h, ?_, ?_⟩
  · rw [huf.1, foldl_overwrite]
    rfl
  · intro v u st0 hu
    rcases hc : transformChunk jsonOk tid rid (StreamChunk.value v) st0
      with ⟨evs1, st1, err1⟩
    have hsf := (transformChunk_stateFacts jsonOk tid rid (StreamChunk.value v) st0
      evs1 st1 err1 hc).1
    show st1.usage = _
    rw [hsf]
    simp [chunkUsage, hu]

theorem foldl_overwrite_id {α : Type} (l : List α) (a : α) :
    l.foldl (fun _ x => x) a = (l.getLast?).getD a := by
  induction l generalizing a with
  | nil => rfl
  | cons x xs ih =>
    rw [List.foldl_cons, ih x]
    cases xs with
    | nil => rfl
    | cons y ys =>
      rw [List.getLast?_cons_cons]
      have h : ∃ z, (y :: ys).getLast? = some z := by
        have h2 : (y :: ys).getLast?.isSome = true := by
          rw [List.getLast?_isSome]
          simp
        exact Option.isSome_iff_exists.mp h2
      obtain ⟨z, hz⟩ := h
      rw [hz]
      rfl

/-- Claim C2, amended: a fragment failing structural validation terminates
processing of that fragment only (exactly one error event, finish reason set
to the error reason, no exception); the stream still ends with a terminal
finish event, and its reason is the error reason provided no later fragment
carries a finish-reason overwrite. -/
theorem claim_C2_amended_malformed_fragment (jsonOk : String → Bool)
    (tid rid : String) :
    (∀ st : StreamState,
      transformChunk jsonOk tid rid StreamChunk.failure st =
        ([StreamEvent.errorEvent], { st with finishReason := ⟨"error", none⟩ }, none) ∧
      transformChunk jsonOk tid rid StreamChunk.errorValue st =
        ([StreamEvent.errorEvent], { st with finishReason := ⟨"error", none⟩ }, none)) ∧
    (∀ (chunks : List StreamChunk) (evs : List StreamEvent) (st' : StreamState),
      runTransform jsonOk tid rid chunks initialStreamState = (evs, st', none) →
      (doStreamEvents jsonOk tid rid chunks).getLast? =
        some (StreamEvent.finish st'.finishReason st'.usage)) ∧
    (∀ (pre suf : List StreamChunk) (evs : List StreamEvent) (st' : StreamState),
      runTransform jsonOk tid rid (pre ++ StreamChunk.failure :: suf)
        initialStreamState = (evs, st', none) →
      (∀ ch ∈ suf, chunkFinishReasonUpdate ch = none) →
      st'.finishReason = ⟨"error", none⟩) := by
  refine ⟨fun st => ⟨rfl, rfl⟩,
    fun chunks evs st' h => doStreamEvents_getLast jsonOk tid rid chunks evs st' h,
    ?_⟩
  intro pre suf evs st' h hsuf
  have huf := runTransform_usageFinish jsonOk tid rid _ initialStreamState
    evs st' h
  rw [huf.2, foldl_overwrite_id]
  have hsufnil : suf.filterMap chunkFinishReasonUpdate = [] :=
    List.filterMap_eq_nil_iff.mpr hsuf
  have hfail : chunkFinishReasonUpdate StreamChunk.failure =
      some ⟨"error", none⟩ := rfl
  rw [List.filterMap_append, List.filterMap_cons, hfail, hsufnil]
  show ((List.filterMap chunkFinishReasonUpdate pre ++
    [(⟨"error", none⟩ : FinishReason)]).getLast?).getD _ = _
  simp



/-- Claim C5, amended: for non-throwing runs, the `text-delta` (resp.
`reasoning-delta`) payloads are exactly the non-empty arrived text (resp.
reasoning) fragments, in arrival order, verbatim; for a tool-call index, each
fragment processed before finalization contributes its arguments verbatim to
exactly one `tool-input-delta` and to the accumulated arguments (the first
fragment emits a delta only when non-empty), while fragments arriving after
finalization are dropped. -/
theorem claim_C5_amended_delta_concatenation (jsonOk : String → Bool)
    (tid rid : String) (chunks : List StreamChunk) (evs : List StreamEvent)
    (st' : StreamState)
    (h : runTransform jsonOk tid rid chunks initialStreamState = (evs, st', none)) :
    textDeltaPayloads (doStreamEvents jsonOk tid rid chunks) =
      (chunks.flatMap chunkTextFragments).filter (fun t => decide (0 < t.length)) ∧
    reasoningDeltaPayloads (doStreamEvents jsonOk tid rid chunks) =
      (chunks.flatMap chunkReasoningFragments).filter
        (fun t => decide (0 < t.length)) ∧
    (∀ (td : SarvamToolCallDelta) (tc : Nat → Option ToolCallState)
      (tcId name : String), tc td.index = none → td.ty = some "function" →
      td.id = some tcId → td.functionName = some name →
      toolDeltaStep jsonOk td tc =
        ([StreamEvent.toolInputStart tcId name]
          ++ (if (td.functionArguments.getD "").length > 0 then
                [StreamEvent.toolInputDelta tcId (td.functionArguments.getD "")]
              else [])
          ++ (if jsonOk (td.functionArguments.getD "") then
                [StreamEvent.toolInputEnd tcId,
                 StreamEvent.toolCall tcId name (td.functionArguments.getD "")]
              else []),
         fun j => if j = td.index then
             some ⟨tcId, name, td.functionArguments.getD "",
               jsonOk (td.functionArguments.getD "")⟩
           else tc j,
         none)) ∧
    (∀ (td : SarvamToolCallDelta) (tc : Nat → Option ToolCallState)
      (current : ToolCallState), tc td.index = some current →
      current.hasFinished = false →
      toolDeltaStep jsonOk td tc =
        ([StreamEvent.toolInputDelta current.id (td.functionArguments.getD "")]
          ++ (if jsonOk (current.arguments ++ td.functionArguments.getD "") then
                [StreamEvent.toolInputEnd current.id,
                 StreamEvent.toolCall current.id current.name
                   (current.arguments ++ td.functionArguments.getD "")]
              else []),
         fun j => if j = td.index then
             some { current with
               arguments := current.arguments ++ td.functionArguments.getD "",
               hasFinished := jsonOk (current.arguments ++ td.functionArguments.getD "") }
           else tc j,
         none)) ∧
    (∀ (td : SarvamToolCallDelta) (tc : Nat → Option ToolCallState)
      (current : ToolCallState), tc td.index = some current →
      current.hasFinished = true →
      toolDeltaStep jsonOk td tc = ([], tc, none)) := by
  have hpay := runTransform_payloads jsonOk tid rid chunks initialStreamState
    evs st' h
  have hout := doStreamEvents_eq_of_run jsonOk tid rid chunks evs st' h
  have hflushT : textDeltaPayloads (flushEvents tid rid st') = [] :=
    List.filterMap_eq_nil_iff.mpr (fun e he => by
      rcases flushEvents_classify tid rid st' e he with rfl | rfl | rfl <;> rfl)
  have hflushR : reasoningDeltaPayloads (flushEvents tid rid st') = [] :=
    List.filterMap_eq_nil_iff.mpr (fun e he => by
      rcases flushEvents_classify tid rid st' e he with rfl | rfl | rfl <;> rfl)
  refine ⟨?_, ?_, ?_, ?_, toolDeltaStep_finished_skip jsonOk⟩
  · rw [hout, textDeltaPayloads_append, hflushT, List.append_nil]
    exact hpay.1
  · rw [hout, reasoningDeltaPayloads_append, hflushR, List.append_nil]
    exact hpay.2
  · intro td tc tcId name hnone hty hid hname
    simp [toolDeltaStep, hnone, hty, hid, hname]
  · intro td tc current hcur hnf
    simp [toolDeltaStep, hcur, hnf]



/-- A concrete JSON-validity test agreeing with real JSON parsing on the
strings exercised by the concrete examples below. -/
def jsonOkSample : String → Bool := fun s => s == "{}"

def sampleTextChunk : StreamChunk :=
  .value ⟨none, none, none, [⟨some ⟨some "hi", none, none⟩, some "stop", 0⟩], none⟩

def sampleToolChunk1 : StreamChunk :=
  .value ⟨none, none, none,
    [⟨some ⟨none, none, some [⟨0, some "a", some "function", some "f", some "{}"⟩]⟩,
      none, 0⟩], none⟩

def sampleToolChunk2 : StreamChunk :=
  .value ⟨none, none, none,
    [⟨some ⟨none, none, some [⟨0, none, none, none, some "xyz"⟩]⟩, none, 0⟩], none⟩

def sampleUsageChunk : StreamChunk :=
  .value ⟨none, none, none, [], some ⟨some 3, some 4⟩⟩

/-- Claim C2, counterexample: after a malformed fragment, processing does NOT
terminate — a later well-formed fragment still produces text events — and the
terminal finish reason is the later fragment's `stop`, not the error reason. -/
theorem claim_C2_counterexample :
    doStreamEvents jsonOkSample "T" "R" [StreamChunk.failure, sampleTextChunk] =
      [StreamEvent.errorEvent, StreamEvent.streamStart,
       StreamEvent.responseMetadata none none none, StreamEvent.textStart "T",
       StreamEvent.textDelta "T" "hi", StreamEvent.textEnd "T",
       StreamEvent.finish ⟨"stop", some "stop"⟩ emptyUsage] ∧
    (doStreamEvents jsonOkSample "T" "R"
      [StreamChunk.failure, sampleTextChunk]).getLast? =
      some (StreamEvent.finish ⟨"stop", some "stop"⟩ emptyUsage) ∧
    (⟨"stop", some "stop"⟩ : FinishReason) ≠ ⟨"error", none⟩ := by
  refine ⟨?_, ?_, ?_⟩ <;> decide

/-- Claim C5, counterexample: after index 0 finalizes with arguments `{}`,
a later fragment carrying the non-empty arguments `xyz` for index 0 is
dropped: only one `tool-input-delta` is emitted and no event carries `xyz`,
so the concatenation of emitted deltas (`{}`) differs from the concatenation
of arrived fragments (`{}xyz`). -/
theorem claim_C5_counterexample :
    doStreamEvents jsonOkSample "T" "R" [sampleToolChunk1, sampleToolChunk2] =
      [StreamEvent.streamStart, StreamEvent.responseMetadata none none none,
       StreamEvent.toolInputStart "a" "f", StreamEvent.toolInputDelta "a" "{}",
       StreamEvent.toolInputEnd "a", StreamEvent.toolCall "a" "f" "{}",
       StreamEvent.finish ⟨"other", none⟩ emptyUsage] ∧
    (doStreamEvents jsonOkSample "T" "R"
      [sampleToolChunk1, sampleToolChunk2]).countP isToolInputDeltaEvent = 1 ∧
    StreamEvent.toolInputDelta "a" "xyz" ∉
      doStreamEvents jsonOkSample "T" "R" [sampleToolChunk1, sampleToolChunk2] := by
  refine ⟨?_, ?_, ?_⟩ <;> decide

theorem claim_C1_witness :
    toolDeltaStep jsonOkSample ⟨0, some "a", some "function", some "f", some "x"⟩
      (fun _ => some ⟨"a", "f", "{}", true⟩) =
      ([], (fun _ => some ⟨"a", "f", "{}", true⟩), none) :=
  (claim_C1_tool_call_finalization jsonOkSample "T" "R" []).2.1
    ⟨0, some "a", some "function", some "f", some "x"⟩
    (fun _ => some ⟨"a", "f", "{}", true⟩) ⟨"a", "f", "{}", true⟩ rfl rfl

theorem claim_C3_witness :
    (((toolDeltaStep jsonOkSample ⟨0, none, none, none, none⟩
      (fun _ => some ⟨"a", "f", "", false⟩)).2.1) 0).isSome = true :=
  (claim_C3_start_events jsonOkSample "T" "R" []).2.2.2.2.2.2
    ⟨0, none, none, none, none⟩ (fun _ => some ⟨"a", "f", "", false⟩) 0 rfl

theorem claim_C4_witness :
    (doStreamEvents jsonOkSample "T" "R" [sampleTextChunk]).countP
      isTextEndEvent = 1 := by
  have h : runTransform jsonOkSample "T" "R" [sampleTextChunk]
      initialStreamState =
      ((runTransform jsonOkSample "T" "R" [sampleTextChunk]
          initialStreamState).1,
       (runTransform jsonOkSample "T" "R" [sampleTextChunk]
          initialStreamState).2.1, none) := rfl
  have hc := claim_C4_end_events jsonOkSample "T" "R" [sampleTextChunk] _ _ h
  rw [hc.2.2.2.2.2.1]
  rfl

theorem claim_C6_witness :
    ((runTransform jsonOkSample "T" "R" [sampleUsageChunk]
      initialStreamState).2.1).usage = ⟨some 3, some 4⟩ := by
  have h : runTransform jsonOkSample "T" "R" [sampleUsageChunk]
      initialStreamState =
      ((runTransform jsonOkSample "T" "R" [sampleUsageChunk]
          initialStreamState).1,
       (runTransform jsonOkSample "T" "R" [sampleUsageChunk]
          initialStreamState).2.1, none) := rfl
  have hc := claim_C6_usage_last_write jsonOkSample "T" "R" [sampleUsageChunk] _ _ h
  rw [hc.2.1]
  rfl

theorem claim_C2_witness :
    ((runTransform jsonOkSample "T" "R" [StreamChunk.failure]
      initialStreamState).2.1).finishReason = ⟨"error", none⟩ := by
  have h : runTransform jsonOkSample "T" "R" ([] ++ StreamChunk.failure :: [])
      initialStreamState =
      ((runTransform jsonOkSample "T" "R" [StreamChunk.failure]
          initialStreamState).1,
       (runTransform jsonOkSample "T" "R" [StreamChunk.failure]
          initialStreamState).2.1, none) := rfl
  exact (claim_C2_amended_malformed_fragment jsonOkSample "T" "R").2.2 [] [] _ _ h
    (fun ch hch => by simp at hch)

theorem claim_C5_witness :
    textDeltaPayloads (doStreamEvents jsonOkSample "T" "R" [sampleTextChunk]) =
      ["hi"] := by
  have h : runTransform jsonOkSample "T" "R" [sampleTextChunk]
      initialStreamState =
      ((runTransform jsonOkSample "T" "R" [sampleTextChunk]
          initialStreamState).1,
       (runTransform jsonOkSample "T" "R" [sampleTextChunk]
          initialStreamState).2.1, none) := rfl
  have hc := claim_C5_amended_delta_concatenation jsonOkSample "T" "R"
    [sampleTextChunk] _ _ h
  rw [hc.1]
  rfl


/-! ## Message converter, finish-reason, and translation claims -/


/-- Conversion of one user content part as the spec describes it (total: the
claim restricts prompts to text and image parts). -/
def specUserPart (toBase64 : List Nat → String) : UserPart → SarvamContentPart
  | .text t => .text t
  | .file f =>
    match f.data with
    | .url u => .imageUrl u
    | .base64Data s => .imageUrl ("data:" ++ f.mediaType ++ ";base64," ++ s)
    | .bytes b => .imageUrl ("data:" ++ f.mediaType ++ ";base64," ++ toBase64 b)

/-- The text of an assistant part, if it is a text part. -/
def asstTextOf {α : Type} : AssistantPart α → Option String
  | .text t => some t
  | _ => none

/-- The vendor tool call of an assistant part, if it is a tool-call part. -/
def asstCallOf {α : Type} (stringify : α → String) :
    AssistantPart α → Option SarvamToolCall
  | AssistantPart.toolCall i n inp => some ⟨i, n, stringify inp⟩
  | _ => none

/-- Modelled from the spec: the vendor messages one prompt turn becomes —
one system message per system turn, one user message per user turn (a plain
string for a single text part, else an array of text and image parts), one
assistant message per assistant turn with its text parts concatenated and its
tool calls collected in order, and one tool message per tool-result part. -/
def specTurnMessages {α : Type} (stringify : α → String)
    (toBase64 : List Nat → String) (fakeToolSystemPrompt : Option String) :
    PromptMessage α → List SarvamMessage
  | .system c =>
    [SarvamMessage.system
      (match fakeToolSystemPrompt with
       | some f => c ++ "\n\n" ++ f
       | none => c)]
  | .user content =>
    match content with
    | [UserPart.text t] => [SarvamMessage.userText t]
    | _ => [SarvamMessage.userParts (content.map (specUserPart toBase64))]
  | .assistant content =>
    [SarvamMessage.assistant (String.join (content.filterMap asstTextOf))
      (if (content.filterMap (asstCallOf stringify)).length > 0 then
        some (content.filterMap (asstCallOf stringify))
      else none)]
  | .tool content =>
    content.filterMap fun p =>
      match p with
      | ToolPart.toolResult i output =>
        some (SarvamMessage.tool i (toolOutputContent stringify output))
      | ToolPart.otherPart => none

/-- All file parts of the message (if it is a user turn) are images. -/
def userFilesAreImages {α : Type} : PromptMessage α → Prop
  | .user content => ∀ p ∈ content,
      match p with
      | UserPart.file f => f.mediaType.startsWith "image/" = true
      | _ => True
  | _ => True

theorem strJoin_cons (a : String) (l : List String) :
    String.join (a :: l) = a ++ String.join l := by
  apply String.ext
  simp

theorem assistantAccum_go {α : Type} (stringify : α → String)
    (parts : List (AssistantPart α)) :
    ∀ (t0 : String) (c0 : List SarvamToolCall),
      parts.foldl (assistantFold stringify) (t0, c0) =
      (t0 ++ String.join (parts.filterMap asstTextOf),
        c0 ++ parts.filterMap (asstCallOf stringify)) := by
  induction parts with
  | nil =>
    intro t0 c0
    simp [String.join]
  | cons p rest ih =>
    intro t0 c0
    cases p with
    | text t =>
      simp only [List.foldl_cons, List.filterMap_cons, asstTextOf, asstCallOf,
        assistantFold]
      rw [ih, strJoin_cons]
      simp [String.append_assoc]
    | toolCall i n inp =>
      simp only [List.foldl_cons, List.filterMap_cons, asstTextOf, asstCallOf,
        assistantFold]
      rw [ih]
      simp
    | otherPart =>
      simp only [List.foldl_cons, List.filterMap_cons, asstTextOf, asstCallOf,
        assistantFold]
      rw [ih]

theorem assistantAccum_spec {α : Type} (stringify : α → String)
    (parts : List (AssistantPart α)) :
    assistantAccum stringify parts =
      (String.join (parts.filterMap asstTextOf),
        parts.filterMap (asstCallOf stringify)) := by
  unfold assistantAccum
  rw [assistantAccum_go]
  simp

theorem mapM_convertUserPart_ok (toBase64 : List Nat → String)
    (content : List UserPart)
    (h : ∀ p ∈ content,
      match p with
      | UserPart.file f => f.mediaType.startsWith "image/" = true
      | _ => True) :
    content.mapM (convertUserPart toBase64) =
      Except.ok (content.map (specUserPart toBase64)) := by
  induction content with
  | nil => rfl
  | cons p rest ih =>
    have hp := h p (by simp)
    have hrest := ih (fun q hq => h q (by simp [hq]))
    rw [List.mapM_cons, hrest]
    have hcp : convertUserPart toBase64 p = Except.ok (specUserPart toBase64 p) := by
      cases p with
      | text t => rfl
      | file f =>
        simp only at hp
        simp only [convertUserPart, specUserPart, hp, Bool.not_true, if_false]
        cases f.data <;> simp
    rw [hcp]
    rfl

theorem convertMessage_ok {α : Type} (stringify : α → String)
    (toBase64 : List Nat → String) (fake : Option String)
    (m : PromptMessage α) (h : userFilesAreImages m) :
    convertMessage stringify toBase64 fake m =
      Except.ok (specTurnMessages stringify toBase64 fake m) := by
  cases m with
  | system c => rfl
  | assistant content =>
    simp only [convertMessage, specTurnMessages, assistantAccum_spec]
  | tool content => rfl
  | user content =>
    simp only [userFilesAreImages] at h
    cases content with
    | nil => rfl
    | cons p ps =>
      cases ps with
      | nil =>
        cases p with
        | text t => rfl
        | file f =>
          simp only [convertMessage, specTurnMessages]
          rw [mapM_convertUserPart_ok _ _ h]
          rfl
      | cons q qs =>
        simp only [convertMessage, specTurnMessages]
        rw [mapM_convertUserPart_ok _ _ h]
        rfl

/-- Claim C8: for a multi-turn prompt of system, user, assistant, and tool
turns whose file parts are all images, `convertToSarvamChatMessages` returns
the flat vendor message array obtained by converting each turn in the
original order: one system message per system turn, one user message per user
turn (a plain string for a single text part, else an array of text and
image_url parts), one assistant message per assistant turn with text parts
concatenated and tool calls collected, and one tool message per tool-result
part. -/
theorem claim_C8_message_conversion {α : Type} (stringify : α → String)
    (toBase64 : List Nat → String) (fake : Option String)
    (prompt : List (PromptMessage α))
    (h : ∀ m ∈ prompt, userFilesAreImages m) :
    convertToSarvamChatMessages stringify toBase64 prompt fake =
      Except.ok ((prompt.map (specTurnMessages stringify toBase64 fake)).flatten) := by
  induction prompt with
  | nil => rfl
  | cons m rest ih =>
    have hm := h m (by simp)
    have hrest := ih (fun q hq => h q (by simp [hq]))
    simp only [convertToSarvamChatMessages, List.map_cons, List.flatten]
    rw [convertMessage_ok _ _ _ _ hm]
    rw [hrest]
    rfl

theorem claim_C8_witness :
    convertToSarvamChatMessages (fun (_ : Unit) => "null") (fun _ => "")
      [PromptMessage.system "sys",
       PromptMessage.user [UserPart.text "hello"],
       PromptMessage.assistant [AssistantPart.text "hi ",
         AssistantPart.text "there",
         AssistantPart.toolCall "t1" "get" ()],
       PromptMessage.tool [ToolPart.toolResult "t1" (ToolOutput.text "42")]]
      none =
      Except.ok [SarvamMessage.system "sys", SarvamMessage.userText "hello",
        SarvamMessage.assistant "hi there" (some [⟨"t1", "get", "null"⟩]),
        SarvamMessage.tool "t1" "42"] := by
  rw [claim_C8_message_conversion (fun (_ : Unit) => "null") (fun _ => "") none _
    (by
      intro m hm
      simp only [List.mem_cons, List.not_mem_nil, or_false] at hm
      rcases hm with rfl | rfl | rfl | rfl
      · trivial
      · intro p hp
        simp only [List.mem_singleton] at hp
        subst hp
        trivial
      · trivial
      · trivial)]
  rfl



/-- Claim C7: `mapSarvamFinishReason` maps `stop` to `stop`, `length` to
`length`, `content_filter` to `content-filter`, `function_call` and
`tool_calls` to `tool-calls`, and every other vendor string to `other`; the
normalized value always lies in the finish-reason enum, and the raw vendor
string is preserved verbatim (absent when the input is null or undefined). -/
theorem claim_C7_finish_reason_mapping :
    mapSarvamFinishReason (some "stop") = ⟨"stop", some "stop"⟩ ∧
    mapSarvamFinishReason (some "length") = ⟨"length", some "length"⟩ ∧
    mapSarvamFinishReason (some "content_filter") =
      ⟨"content-filter", some "content_filter"⟩ ∧
    mapSarvamFinishReason (some "function_call") =
      ⟨"tool-calls", some "function_call"⟩ ∧
    mapSarvamFinishReason (some "tool_calls") = ⟨"tool-calls", some "tool_calls"⟩ ∧
    mapSarvamFinishReason none = ⟨"other", none⟩ ∧
    (∀ s : String,
      s ∉ (["stop", "length", "content_filter", "function_call",
        "tool_calls"] : List String) →
      mapSarvamFinishReason (some s) = ⟨"other", some s⟩) ∧
    (∀ r : Option String,
      (mapSarvamFinishReason r).unified ∈
        (["stop", "length", "content-filter", "tool-calls", "error",
          "other"] : List String) ∧
      (mapSarvamFinishReason r).raw = r) := by
  refine ⟨rfl, rfl, rfl, rfl, rfl, rfl, ?_, ?_⟩
  · intro s hs
    simp only [List.mem_cons, List.not_mem_nil, or_false, not_or] at hs
    obtain ⟨h1, h2, h3, h4, h5⟩ := hs
    unfold mapSarvamFinishReason
    split <;> simp_all
  · intro r
    unfold mapSarvamFinishReason
    split <;> simp_all

theorem claim_C7_witness :
    mapSarvamFinishReason (some "eos") = ⟨"other", some "eos"⟩ :=
  claim_C7_finish_reason_mapping.2.2.2.2.2.2.1 "eos" (by decide)

/-- Claim C9: in the tool-call loop of `doStream`, a fragment whose index was
not seen before and whose `type` is not `function`, or whose `id` is missing,
or whose `function.name` is missing, makes the transform throw an
`InvalidResponseDataError`: no event (in particular no error event) is
enqueued for it, the `toolCalls` state is unchanged, and the remaining
fragments of the chunk are not processed. -/
theorem claim_C9_fresh_invalid_tool_delta_throws :
    ∀ (jsonOk : String → Bool) (td : SarvamToolCallDelta)
      (tc : Nat → Option ToolCallState) (rest : List SarvamToolCallDelta),
      tc td.index = none →
      (td.ty ≠ some "function" ∨ td.id = none ∨ td.functionName = none) →
      ∃ msg,
        toolDeltaStep jsonOk td tc = ([], tc, some (.invalidResponseData msg)) ∧
        processToolCallDeltas jsonOk (td :: rest) tc =
          ([], tc, some (.invalidResponseData msg)) := by
  intro jsonOk td tc rest hnone hbad
  have hstep : ∃ msg,
      toolDeltaStep jsonOk td tc = ([], tc, some (.invalidResponseData msg)) := by
    unfold toolDeltaStep
    rw [hnone]
    by_cases hty : td.ty = some "function"
    · rcases hbad with h | h | h
      · exact absurd hty h
      · rw [if_neg (by simp [hty]), h]
        exact ⟨_, rfl⟩
      · rw [if_neg (by simp [hty])]
        cases hid : td.id with
        | none => exact ⟨_, rfl⟩
        | some i =>
          rw [h]
          exact ⟨_, rfl⟩
    · rw [if_pos (by simp [hty])]
      exact ⟨_, rfl⟩
  obtain ⟨msg, hmsg⟩ := hstep
  refine ⟨msg, hmsg, ?_⟩
  unfold processToolCallDeltas
  rw [hmsg]

theorem claim_C9_witness :
    ∃ msg,
      toolDeltaStep (fun _ => true) ⟨0, none, some "function", some "f", none⟩
          (fun _ => none) =
        ([], (fun _ => none), some (.invalidResponseData msg)) ∧
      processToolCallDeltas (fun _ => true)
          [⟨0, none, some "function", some "f", none⟩] (fun _ => none) =
        ([], (fun _ => none), some (.invalidResponseData msg)) :=
  claim_C9_fresh_invalid_tool_delta_throws (fun _ => true)
    ⟨0, none, some "function", some "f", none⟩ (fun _ => none) [] rfl
    (Or.inr (Or.inl rfl))

/-- Claim C10: `SarvamTranslationModel` rejects a call before any request body
is built and before any HTTP request is issued whenever the configured source
language equals the target language, and, for the `sarvam-translate:v1` model,
whenever the mode is set to anything other than `formal` or the source
language is `auto` (unset): `getArgs` throws a plain `Error` in each case. -/
theorem claim_C10_translation_validation :
    ∀ {α : Type} (settings : SarvamTranslationSettings)
      (coerceParts : List SarvamContentPart → String) (stringify : α → String)
      (toBase64 : List Nat → String) (prompt : List (PromptMessage α)),
      settings.from_ = settings.to_ ∨
        (translationModelId settings = "sarvam-translate:v1" ∧
          (settings.mode.getD "formal" ≠ "formal" ∨
            settings.from_.getD "auto" = "auto")) →
      ∃ msg,
        translationGetArgs settings coerceParts stringify toBase64 prompt =
          Except.error (.settingsError msg) := by
  intro α settings coerceParts stringify toBase64 prompt h
  unfold translationGetArgs
  split_ifs with h1 h2 h3
  · exact ⟨_, rfl⟩
  · exact ⟨_, rfl⟩
  · exact ⟨_, rfl⟩
  · exfalso
    rcases h with h | ⟨hm, h⟩
    · exact h1 h
    · rcases h with h | h
      · exact h2 ⟨hm, h⟩
      · exact h3 ⟨hm, h⟩

theorem claim_C10_witness :
    ∃ msg,
      translationGetArgs
        ⟨some "sarvam-translate:v1", none, some "hi-IN", some "formal",
          none, none, none, none⟩
        (fun _ => "") (fun (_ : Unit) => "") (fun _ => "") [] =
        Except.error (.settingsError msg) :=
  claim_C10_translation_validation
    ⟨some "sarvam-translate:v1", none, some "hi-IN", some "formal",
      none, none, none, none⟩
    (fun _ => "") (fun (_ : Unit) => "") (fun _ => "") []
    (Or.inr ⟨rfl, Or.inr rfl⟩)


end Sarvam
